import Mathlib

/-!
Verification of `scripts-cims/primer_specificity.py`.

The script correlates EMBOSS primersearch amplification reports with
kraken taxonomy labels.  We shallowly embed the script: text streams become
`List String` of lines (without the trailing newline, which is immaterial
because every numeric token is parsed with whitespace-stripping `int`),
Python dictionaries become ordered association lists with Python's
insertion-order/overwrite-in-place semantics, and every operation that can
raise a Python exception (`IndexError`/`ValueError` on malformed fields,
`NameError` on an unset loop cursor, `KeyError` on a missing dict key)
returns `Except PyErr`.

Python string primitives are re-implemented over `List Char` so that they
stay executable and induction-friendly:
`str.split(sep)` for a one-character separator is `splitCharL`,
`str.split()` is `splitWsL`, `str.replace` is `replaceL` (left-to-right,
non-overlapping, only used with non-empty patterns as in the script),
`str.rstrip()` is `rstripL`, `str.lstrip("\t")` / `str.lstrip(">")` /
`str.strip("[]")` drop characters from the relevant ends, and `int(...)`
is `pyInt?` (surrounding whitespace allowed, optional sign, decimal digits;
the script never feeds it underscore-grouped literals).
-/

/-- Errors corresponding to the Python exceptions the script can raise.
`parseErr` stands for an `IndexError`/`ValueError` while parsing and records
the offending line, `nameErr` for a `NameError` on an unassigned cursor
variable, `keyErr` for a dictionary `KeyError`, and `indexErr` for an
`IndexError` on a list subscript outside parsing. -/
inductive PyErr where
  | parseErr (line : String) : PyErr
  | nameErr (v : String) : PyErr
  | keyErr (k : String) : PyErr
  | indexErr (ctx : String) : PyErr
deriving DecidableEq

/-- Split a character list at every character satisfying `p`, keeping empty
segments, exactly like Python `str.split(sep)` keeps them. -/
def splitPredL (p : Char → Bool) : List Char → List (List Char)
  | [] => [[]]
  | c :: rest =>
    let r := splitPredL p rest
    if p c then [] :: r
    else
      match r with
      | [] => [[c]]
      | t :: ts => (c :: t) :: ts

/-- Python `str.split(sep)` for a single-character separator. -/
def splitCharL (sep : Char) (cs : List Char) : List (List Char) :=
  splitPredL (fun c => c = sep) cs

/-- Python `str.split()` with no argument: split on whitespace runs and drop
empty segments. -/
def splitWsL (cs : List Char) : List (List Char) :=
  (splitPredL Char.isWhitespace cs).filter (fun t => !t.isEmpty)

/-- Python `pat in s` substring test. -/
def containsL (pat : List Char) : List Char → Bool
  | [] => pat.isEmpty
  | c :: rest => pat.isPrefixOf (c :: rest) || containsL pat rest

/-- Fuel-driven worker for `replaceL`; `fuel` at least the length of the
input makes the fuel-exhausted branch unreachable. -/
def replaceFuel (pat rep : List Char) : Nat → List Char → List Char
  | _, [] => []
  | 0, cs => cs
  | fuel + 1, c :: rest =>
    if pat.isPrefixOf (c :: rest) && !pat.isEmpty then
      rep ++ replaceFuel pat rep fuel (rest.drop (pat.length - 1))
    else
      c :: replaceFuel pat rep fuel rest

/-- Python `s.replace(pat, rep)`: replace every non-overlapping occurrence,
scanning left to right.  The script only uses non-empty patterns. -/
def replaceL (pat rep cs : List Char) : List Char :=
  replaceFuel pat rep cs.length cs

/-- Python `str.rstrip()`: drop trailing whitespace. -/
def rstripL (cs : List Char) : List Char :=
  (cs.reverse.dropWhile Char.isWhitespace).reverse

/-- Python `str.lstrip("\t")`: drop every leading tab. -/
def lstripTabL (cs : List Char) : List Char :=
  cs.dropWhile (fun c => c = '\t')

/-- Python `str.lstrip(">")`: drop every leading marker character. -/
def lstripGtL (cs : List Char) : List Char :=
  cs.dropWhile (fun c => c = '>')

/-- Python `str.strip("[]")`: drop `[` and `]` from both ends. -/
def stripBrkL (cs : List Char) : List Char :=
  let p := fun c => c = '[' || c = ']'
  ((cs.dropWhile p).reverse.dropWhile p).reverse

/-- Decimal value of a digit list. -/
def digitsToNat (cs : List Char) : Nat :=
  cs.foldl (fun a c => a * 10 + (c.toNat - 48)) 0

/-- Python `int(s)`: strip surrounding whitespace, allow one optional sign,
then require a non-empty run of decimal digits. -/
def pyInt? (s : String) : Option Int :=
  let cs := (s.data.dropWhile Char.isWhitespace).reverse.dropWhile Char.isWhitespace |>.reverse
  let signed : Int × List Char :=
    match cs with
    | '-' :: rest => (-1, rest)
    | '+' :: rest => (1, rest)
    | _ => (1, cs)
  if signed.2.isEmpty then none
  else if signed.2.all Char.isDigit then some (signed.1 * (digitsToNat signed.2 : Int))
  else none

/-- String wrappers over the list primitives. -/
def pyBlank (s : String) : Bool := s.data.all Char.isWhitespace

/-- Python `s.startswith(p)`. -/
def pyStartsWith (s p : String) : Bool := p.data.isPrefixOf s.data

/-- Python `p in s`. -/
def pyContains (s p : String) : Bool := containsL p.data s.data

/-- Python `s.split()` returning strings. -/
def pySplitWs (s : String) : List String := (splitWsL s.data).map String.mk

/-- Python `s.split(sep)` for a one-character separator, returning strings. -/
def pySplitOnChar (sep : Char) (s : String) : List String :=
  (splitCharL sep s.data).map String.mk

/-- Python `s.replace(pat, rep)` on strings. -/
def pyReplace (s pat rep : String) : String :=
  String.mk (replaceL pat.data rep.data s.data)

/-- Python `s.rstrip()` on strings. -/
def pyRstrip (s : String) : String := String.mk (rstripL s.data)

/-- Ordered association list lookup; keys built by `insertRep` are unique,
so first match is the match. -/
def lookupA {α : Type} (k : String) : List (String × α) → Option α
  | [] => none
  | (k2, v) :: rest => if k2 = k then some v else lookupA k rest

/-- Python dict assignment `d[k] = v`: overwrite in place if the key exists
  (keeping its insertion position), otherwise append at the end. -/
def insertRep {α : Type} (k : String) (v : α) : List (String × α) → List (String × α)
  | [] => [(k, v)]
  | (k2, w) :: rest => if k2 = k then (k2, v) :: rest else (k2, w) :: insertRep k v rest

/-- The `Amplifier` record of the script: one amplification event. -/
structure Amplifier where
  amp_len : Int
  contig_id : String
  contig_len : Int
  f_primer : String
  f_start : Int
  f_mismatch : Int
  r_primer : String
  r_start : Int
  r_mismatch : Int
deriving DecidableEq, Inhabited

/-- A freshly constructed `Amplifier()` with the constructor defaults. -/
def Amplifier.init : Amplifier := ⟨0, "", 0, "", 0, 0, "", 0, 0⟩

/-- Which branch of the `elif` chain of `read_primersearch_result` a line
takes, in the source's order of tests. -/
inductive LineKind where
  | blank | primer | amplimer | seqLine | lenLine | fwd | rev | ampLen | other
deriving DecidableEq

/-- Transcription of the `elif` chain of `read_primersearch_result`. -/
def lineKind (line : String) : LineKind :=
  if pyBlank line then .blank
  else if pyStartsWith line "Primer name" then .primer
  else if pyStartsWith line "Amplimer" then .amplimer
  else if pyStartsWith line "\tSequence: " then .seqLine
  else if pyStartsWith line "\tlength=" then .lenLine
  else if pyContains line "forward strand" then .fwd
  else if pyContains line "reverse strand" then .rev
  else if pyStartsWith line "\tAmplimer length: " then .ampLen
  else .other

/-- Does this line kind populate a field of the current event? -/
def fieldKind : LineKind → Bool
  | .seqLine | .lenLine | .fwd | .rev | .ampLen => true
  | _ => false

/-- Parser state of `read_primersearch_result`.  Python mutates `Amplifier`
objects that are aliased both by the dict lists and by the loop-local
`amplifier` cursor, so events live in an append-only `heap` and the dict
stores heap indices; `curName`/`curAmp` are `None` exactly while the Python
locals `name`/`amplifier` are still unassigned. -/
structure PSState where
  amplifiers : List (String × List Nat)
  heap : List Amplifier
  curName : Option String
  curAmp : Option Nat
deriving DecidableEq

/-- Update the heap cell of the current event. -/
def modifyHeap (s : PSState) (i : Nat) (f : Amplifier → Amplifier) : PSState :=
  { s with heap := s.heap.set i (f (s.heap.getD i Amplifier.init)) }

/-- One loop iteration of `read_primersearch_result`, in the source's
evaluation order (subscripts before `int`, `int` before or after the cursor
access exactly as the statements of each branch order them). -/
def psLine (s : PSState) (line : String) : Except PyErr PSState :=
  match lineKind line with
  | .blank => .ok s
  | .primer =>
    match (pySplitWs line).getLast? with
    | none => .error (.parseErr line)
    | some name =>
      .ok { s with amplifiers := insertRep name [] s.amplifiers, curName := some name }
  | .amplimer =>
    match s.curName with
    | none => .error (.nameErr "name")
    | some n =>
      match lookupA n s.amplifiers with
      | none => .error (.keyErr n)
      | some ids =>
        .ok { s with amplifiers := insertRep n (ids ++ [s.heap.length]) s.amplifiers,
                     heap := s.heap ++ [Amplifier.init],
                     curAmp := some s.heap.length }
  | .seqLine =>
    match s.curAmp with
    | none => .error (.nameErr "amplifier")
    | some i =>
      let cid := pyRstrip (pyReplace line "\tSequence: " "")
      .ok (modifyHeap s i (fun amp => { amp with contig_id := cid }))
  | .lenLine =>
    match (pySplitWs (pyReplace line "\tlength=" "")).head? with
    | none => .error (.parseErr line)
    | some t =>
      match pyInt? t with
      | none => .error (.parseErr line)
      | some v =>
        match s.curAmp with
        | none => .error (.nameErr "amplifier")
        | some i => .ok (modifyHeap s i (fun amp => { amp with contig_len := v }))
  | .fwd =>
    let toks := pySplitOnChar ' ' line
    match toks.get? 5 with
    | none => .error (.parseErr line)
    | some t5 =>
      match toks.get? 7 with
      | none => .error (.parseErr line)
      | some t7 =>
        match s.curAmp with
        | none => .error (.nameErr "amplifier")
        | some i =>
          let fp := String.mk (lstripTabL (toks.getD 0 "").data)
          match pyInt? t5 with
          | none => .error (.parseErr line)
          | some a =>
            match pyInt? t7 with
            | none => .error (.parseErr line)
            | some b =>
              .ok (modifyHeap s i (fun amp =>
                { amp with f_primer := fp, f_start := a, f_mismatch := b }))
  | .rev =>
    let toks := pySplitOnChar ' ' line
    match toks.get? 5 with
    | none => .error (.parseErr line)
    | some t5 =>
      match toks.get? 7 with
      | none => .error (.parseErr line)
      | some t7 =>
        match s.curAmp with
        | none => .error (.nameErr "amplifier")
        | some i =>
          let rp := String.mk (lstripTabL (toks.getD 0 "").data)
          match pyInt? (String.mk (stripBrkL t5.data)) with
          | none => .error (.parseErr line)
          | some a =>
            match pyInt? t7 with
            | none => .error (.parseErr line)
            | some b =>
              .ok (modifyHeap s i (fun amp =>
                { amp with r_primer := rp, r_start := a, r_mismatch := b }))
  | .ampLen =>
    let ws := pySplitWs line
    if ws.length < 2 then .error (.parseErr line)
    else
      match pyInt? (ws.getD (ws.length - 2) "") with
      | none => .error (.parseErr line)
      | some v =>
        match s.curAmp with
        | none => .error (.nameErr "amplifier")
        | some i => .ok (modifyHeap s i (fun amp => { amp with amp_len := v }))
  | .other => .ok s

/-- Initial state: empty record, both cursors unassigned. -/
def psInit : PSState := ⟨[], [], none, none⟩

/-- Run the parser loop from a given state. -/
def psRunFrom (s : PSState) : List String → Except PyErr PSState
  | [] => .ok s
  | l :: ls =>
    match psLine s l with
    | .error e => .error e
    | .ok s2 => psRunFrom s2 ls

/-- Run the parser loop from the initial state. -/
def psRun (lines : List String) : Except PyErr PSState :=
  psRunFrom psInit lines

/-- `read_primersearch_result`: the returned `OutputRecord.amplifiers`
mapping, with heap indices resolved back to the event records. -/
def read_primersearch_result (lines : List String) :
    Except PyErr (List (String × List Amplifier)) :=
  (psRun lines).map fun s =>
    s.amplifiers.map (fun p => (p.1, p.2.map (fun i => s.heap.getD i Amplifier.init)))

instance {ε α : Type} [DecidableEq ε] [DecidableEq α] : DecidableEq (Except ε α)
  | .ok a, .ok b =>
    if h : a = b then isTrue (by rw [h]) else isFalse (fun hc => h (Except.ok.inj hc))
  | .error a, .error b =>
    if h : a = b then isTrue (by rw [h]) else isFalse (fun hc => h (Except.error.inj hc))
  | .ok _, .error _ => isFalse (fun hc => Except.noConfusion hc)
  | .error _, .ok _ => isFalse (fun hc => Except.noConfusion hc)

/-- The two tab fields a kraken-label line is cut into: `line.rstrip().split('\t')`. -/
def taxFields (line : String) : List (List Char) :=
  splitCharL '\t' (rstripL line.data)

/-- The contig identifier of a kraken-label line: `line.rstrip().split('\t')[0]`
(the subscript cannot fail because a split result is never empty). -/
def lineContig (line : String) : String := String.mk ((taxFields line).headD [])

/-- Last semicolon-delimited segment of a lineage string. -/
def lastSemiSegment (lin : String) : String :=
  String.mk ((splitCharL ';' lin.data).getLastD [])

/-- The classification of a kraken-label line:
`line.rstrip().split('\t')[1].split(';')[-1]`, total on the second field. -/
def lineTaxon (line : String) : String :=
  String.mk ((splitCharL ';' ((taxFields line).getD 1 [])).getLastD [])

/-- Loop of `read_kraken_labels`, carried out on an accumulated taxonomy
mapping; a line without a second tab field raises an `IndexError`. -/
def read_kraken_labels_go (acc : List (String × String)) :
    List String → Except PyErr (List (String × String))
  | [] => .ok acc
  | line :: rest =>
    match (taxFields line).get? 1 with
    | none => .error (.parseErr line)
    | some f1 =>
      read_kraken_labels_go
        (insertRep (lineContig line) (String.mk ((splitCharL ';' f1).getLastD [])) acc) rest

/-- `read_kraken_labels`: the returned `TaxRecord.taxonomy` mapping. -/
def read_kraken_labels (lines : List String) : Except PyErr (List (String × String)) :=
  read_kraken_labels_go [] lines

/-- `read_kraken_unclassified`: every line starting with `>` contributes
`line.split(' ')[0].lstrip('>')`, in input order. -/
def read_kraken_unclassified : List String → List String
  | [] => []
  | line :: rest =>
    if pyStartsWith line ">" then
      String.mk (lstripGtL ((splitCharL ' ' line.data).headD [])) ::
        read_kraken_unclassified rest
    else
      read_kraken_unclassified rest

/-- The four lists accumulated by `read_amplicon_info`. -/
structure AmpliconInfo where
  noHits : List String
  contigHits : List String
  multiHits : List String
  ampLengths : List Int
deriving DecidableEq

/-- Classification loop of `read_amplicon_info` over the parsed record:
names with an empty event list go to `noHits`, names with more than one
event to `multiHits`, and every event contributes its contig id and
amplicon length, all in iteration order. -/
def classify_amplifiers : List (String × List Amplifier) → AmpliconInfo
  | [] => ⟨[], [], [], []⟩
  | p :: rest =>
    let r := classify_amplifiers rest
    { noHits := (if p.2.length = 0 then [p.1] else []) ++ r.noHits,
      contigHits := p.2.map (fun a => a.contig_id) ++ r.contigHits,
      multiHits := (if p.2.length > 1 then [p.1] else []) ++ r.multiHits,
      ampLengths := p.2.map (fun a => a.amp_len) ++ r.ampLengths }

/-- `read_amplicon_info`: parse, then classify. -/
def read_amplicon_info (lines : List String) : Except PyErr AmpliconInfo :=
  (read_primersearch_result lines).map classify_amplifiers

/-- Primer-pair names with exactly one event.  The source materialises only
`noHits` and `multiHits`; the claim's third class is the names whose event
list has length one, in record order. -/
def uniqueHits (record : List (String × List Amplifier)) : List String :=
  (record.filter (fun p => p.2.length = 1)).map Prod.fst

/-- Hit count of a primer-pair name in a parsed record, when present. -/
def hitLen? (record : List (String × List Amplifier)) (n : String) : Option Nat :=
  (lookupA n record).map List.length

/-- Loop of `hash_kraken_labels`.  The source tests `taxa in hash.keys()`
(not the contig), then either appends to `hash[contig]` — a `KeyError` when
that key is absent — or rebinds `hash[contig]` to a fresh one-element list. -/
def hash_kraken_labels_go (acc : List (String × List String)) :
    List String → Except PyErr (List (String × List String))
  | [] => .ok acc
  | line :: rest =>
    match (taxFields line).get? 1 with
    | none => .error (.parseErr line)
    | some f1 =>
      let contig := lineContig line
      let taxa := String.mk ((splitCharL ';' f1).getLastD [])
      if (lookupA taxa acc).isSome then
        match lookupA contig acc with
        | none => .error (.keyErr contig)
        | some l => hash_kraken_labels_go (insertRep contig (l ++ [taxa]) acc) rest
      else
        hash_kraken_labels_go (insertRep contig [taxa] acc) rest

/-- `hash_kraken_labels`: the hash map used by the output loop. -/
def hash_kraken_labels (lines : List String) : Except PyErr (List (String × List String)) :=
  hash_kraken_labels_go [] lines

/-- One output row of the report, in the column order of the CSV header. -/
structure Row where
  primerId : String
  hits : Nat
  refId : String
  contigId : String
  ampLength : Int
  taxa : String
  forwardMismatch : Int
  reverseMismatch : Int
  forwardStart : Int
  reverseStart : Int
  forwardPrimerSeq : String
  reversePrimerSeq : String
  orthogroup : String
deriving DecidableEq

/-- Does the taxonomy hash hold a non-empty label list for this contig? -/
def hasLabel (hsh : List (String × List String)) (c : String) : Bool :=
  match lookupA c hsh with
  | some (_ :: _) => true
  | _ => false

/-- The label the output loop prints: `hash_labels[contig_id][0]`
(total version, meaningful when `hasLabel` holds). -/
def labelOf (hsh : List (String × List String)) (c : String) : String :=
  match lookupA c hsh with
  | some (t :: _) => t
  | _ => ""

/-- Build one output row of the `__main__` loop:
`hash_labels[amplifier.contig_id][0]` raises `KeyError` on a missing contig
and `IndexError` on an empty label list; there is no fallback. -/
def mkRow (filename primer_id : String) (hit_count : Nat)
    (hsh : List (String × List String)) (amp : Amplifier) : Except PyErr Row :=
  match lookupA amp.contig_id hsh with
  | none => .error (.keyErr amp.contig_id)
  | some l =>
    match l.head? with
    | none => .error (.indexErr amp.contig_id)
    | some taxa =>
      .ok ⟨primer_id, hit_count, filename, amp.contig_id, amp.amp_len, taxa,
           amp.f_mismatch, amp.r_mismatch, amp.f_start, amp.r_start,
           amp.f_primer, amp.r_primer, "tbd"⟩

/-- Inner loop of `__main__`: one row per event of a primer pair, in report
order, aborting at the first failed row. -/
def emitForPair (filename name : String) (hit_count : Nat)
    (hsh : List (String × List String)) : List Amplifier → Except PyErr (List Row)
  | [] => .ok []
  | amp :: rest => do
    let r ← mkRow filename name hit_count hsh amp
    let rs ← emitForPair filename name hit_count hsh rest
    .ok (r :: rs)

/-- Outer loop of `__main__`: rows for every primer pair of the record, with
`hit_count` the length of that pair's event list. -/
def emit_rows (filename : String) (hsh : List (String × List String)) :
    List (String × List Amplifier) → Except PyErr (List Row)
  | [] => .ok []
  | p :: rest => do
    let rs ← emitForPair filename p.1 p.2.length hsh p.2
    let more ← emit_rows filename hsh rest
    .ok (rs ++ more)

/-- Render a (contig id, lineage) pair as the tab-delimited kraken-label
line the script consumes. -/
def renderTaxLine (p : String × String) : String := p.1 ++ "\t" ++ p.2

/-- Does the string end in a non-whitespace character? -/
def okLast (s : String) : Bool :=
  match s.data.getLast? with
  | none => false
  | some ch => !ch.isWhitespace

/-- Is the string free of tab characters? -/
def noTabB (s : String) : Bool := s.data.all (fun c => !(c = '\t'))

/-- Scan of the implicit cursor precondition: every `Amplimer` line must be
preceded by some `Primer name` line, and every field line by some
`Amplimer` line.  `seenP`/`seenA` record whether such lines occurred. -/
def cursorOk (seenP seenA : Bool) : List String → Bool
  | [] => true
  | l :: rest =>
    match lineKind l with
    | .primer => cursorOk true seenA rest
    | .amplimer => seenP && cursorOk seenP true rest
    | k => if fieldKind k then seenA && cursorOk seenP seenA rest else cursorOk seenP seenA rest

/-- The cursor precondition on a whole input. -/
def cursorPre (lines : List String) : Prop := cursorOk false false lines = true

instance (lines : List String) : Decidable (cursorPre lines) := by
  unfold cursorPre
  infer_instance

theorem lookupA_insertRep_self {α : Type} (k : String) (v : α) (l : List (String × α)) :
    lookupA k (insertRep k v l) = some v := by
  induction l with
  | nil => simp [insertRep, lookupA]
  | cons p rest ih =>
    by_cases h : p.1 = k
    · simp [insertRep, lookupA, h]
    · simp [insertRep, lookupA, h, ih]

theorem lookupA_insertRep_ne {α : Type} {k k2 : String} (hne : k2 ≠ k) (v : α)
    (l : List (String × α)) : lookupA k2 (insertRep k v l) = lookupA k2 l := by
  induction l with
  | nil => simp [insertRep, lookupA, Ne.symm hne]
  | cons p rest ih =>
    by_cases h : p.1 = k
    · have hne2 : ¬ p.1 = k2 := by rw [h]; exact Ne.symm hne
      simp [insertRep, lookupA, h, hne2, Ne.symm hne]
    · simp only [insertRep, if_neg h, lookupA]
      by_cases h2 : p.1 = k2 <;> simp [h2, ih]

theorem lookupA_map {α β : Type} (k : String) (f : α → β) (l : List (String × α)) :
    lookupA k (l.map (fun p => (p.1, f p.2))) = (lookupA k l).map f := by
  induction l with
  | nil => simp [lookupA]
  | cons p rest ih =>
    by_cases h : p.1 = k <;> simp [lookupA, h, ih]

theorem lookupA_isSome_iff {α : Type} (k : String) (l : List (String × α)) :
    (lookupA k l).isSome = true ↔ k ∈ l.map Prod.fst := by
  induction l with
  | nil => simp [lookupA]
  | cons p rest ih =>
    by_cases h : p.1 = k
    · simp [lookupA, h]
    · simp only [lookupA, if_neg h, List.map_cons, List.mem_cons, ih]
      constructor
      · intro hm
        exact Or.inr hm
      · rintro (hc | hm)
        · exact absurd hc.symm h
        · exact hm

theorem lookupA_eq_none_iff {α : Type} (k : String) (l : List (String × α)) :
    lookupA k l = none ↔ k ∉ l.map Prod.fst := by
  rw [← lookupA_isSome_iff]
  cases lookupA k l <;> simp

theorem insertRep_map {α β : Type} (k : String) (v : α) (f : α → β)
    (l : List (String × α)) :
    insertRep k (f v) (l.map (fun p => (p.1, f p.2))) =
      (insertRep k v l).map (fun p => (p.1, f p.2)) := by
  induction l with
  | nil => simp [insertRep]
  | cons p rest ih =>
    by_cases h : p.1 = k <;> simp [insertRep, h, ih]

theorem insertRep_keys_subset {α : Type} (k k2 : String) (v : α) (l : List (String × α))
    (h : k2 ∈ (insertRep k v l).map Prod.fst) : k2 = k ∨ k2 ∈ l.map Prod.fst := by
  induction l with
  | nil => simp [insertRep] at h; exact Or.inl h
  | cons p rest ih =>
    by_cases hk : p.1 = k
    · simp only [insertRep, if_pos hk, List.map_cons, List.mem_cons] at h
      rcases h with h | h
      · exact Or.inr (by simp [h])
      · exact Or.inr (by simp [h])
    · simp only [insertRep, if_neg hk, List.map_cons, List.mem_cons] at h
      rcases h with h | h
      · exact Or.inr (by simp [h])
      · rcases ih h with h2 | h2
        · exact Or.inl h2
        · exact Or.inr (by simp [h2])

theorem psRunFrom_append (s : PSState) (xs ys : List String) :
    psRunFrom s (xs ++ ys) =
      match psRunFrom s xs with
      | .ok s2 => psRunFrom s2 ys
      | .error e => .error e := by
  induction xs generalizing s with
  | nil => simp [psRunFrom]
  | cons l rest ih =>
    simp only [List.cons_append, psRunFrom]
    cases psLine s l <;> simp [ih]

theorem psRunFrom_error_decomp (lines : List String) :
    ∀ (s : PSState) (e : PyErr), psRunFrom s lines = .error e →
      ∃ pre l post s2, lines = pre ++ l :: post ∧ psRunFrom s pre = .ok s2 ∧
        psLine s2 l = .error e := by
  induction lines with
  | nil => intro s e h; simp [psRunFrom] at h
  | cons l rest ih =>
    intro s e h
    simp only [psRunFrom] at h
    cases hl : psLine s l with
    | error e2 =>
      rw [hl] at h
      cases h
      exact ⟨[], l, rest, s, rfl, rfl, hl⟩
    | ok s2 =>
      rw [hl] at h
      obtain ⟨pre, l2, post, s3, hdec, hok, herr⟩ := ih s2 e h
      refine ⟨l :: pre, l2, post, s3, by simp [hdec], ?_, herr⟩
      simp [psRunFrom, hl, hok]

theorem psLine_blank {s : PSState} {l : String} (hk : lineKind l = .blank) :
    psLine s l = .ok s := by
  simp only [psLine, hk]

theorem psLine_other {s : PSState} {l : String} (hk : lineKind l = .other) :
    psLine s l = .ok s := by
  simp only [psLine, hk]

theorem psLine_primer {s : PSState} {l : String} {n : String}
    (hk : lineKind l = .primer) (hn : (pySplitWs l).getLast? = some n) :
    psLine s l =
      .ok { s with amplifiers := insertRep n [] s.amplifiers, curName := some n } := by
  simp only [psLine, hk, hn]

theorem psLine_field_ok {s s2 : PSState} {l : String}
    (hf : fieldKind (lineKind l) = true) (hok : psLine s l = .ok s2) :
    s2.amplifiers = s.amplifiers ∧ s2.curName = s.curName ∧ s2.curAmp = s.curAmp ∧
      s.curAmp.isSome = true := by
  cases hk : lineKind l <;> simp only [psLine, hk] at hok <;> simp [fieldKind, hk] at hf <;>
    (repeat' split at hok) <;>
    (try (simp only [modifyHeap, Except.ok.injEq] at hok; try subst hok)) <;>
    simp_all [modifyHeap]

theorem psLine_primer_ok {s s2 : PSState} {l : String}
    (hk : lineKind l = .primer) (hok : psLine s l = .ok s2) :
    s2.curName.isSome = true ∧ s2.curAmp = s.curAmp := by
  simp only [psLine, hk] at hok
  (repeat' split at hok) <;>
    (try (simp only [Except.ok.injEq] at hok; try subst hok)) <;>
    simp_all

theorem psLine_amplimer_ok {s s2 : PSState} {l : String}
    (hk : lineKind l = .amplimer) (hok : psLine s l = .ok s2) :
    s.curName.isSome = true ∧ s2.curName = s.curName ∧ s2.curAmp.isSome = true := by
  simp only [psLine, hk] at hok
  (repeat' split at hok) <;>
    (try (simp only [Except.ok.injEq] at hok; try subst hok)) <;>
    simp_all

theorem psLine_ok_curName {s s2 : PSState} {l : String} (hok : psLine s l = .ok s2) :
    s2.curName = s.curName ∨ lineKind l = .primer := by
  cases hk : lineKind l <;> simp only [psLine, hk] at hok <;> (repeat' split at hok) <;>
    (try (simp only [modifyHeap, Except.ok.injEq] at hok; try subst hok)) <;>
    simp_all [modifyHeap]

theorem psLine_ok_curAmp {s s2 : PSState} {l : String} (hok : psLine s l = .ok s2) :
    s2.curAmp = s.curAmp ∨ lineKind l = .amplimer := by
  cases hk : lineKind l <;> simp only [psLine, hk] at hok <;> (repeat' split at hok) <;>
    (try (simp only [modifyHeap, Except.ok.injEq] at hok; try subst hok)) <;>
    simp_all [modifyHeap]

theorem psLine_nameErr {s : PSState} {l : String} {v : String}
    (herr : psLine s l = .error (.nameErr v)) :
    (lineKind l = .amplimer ∧ s.curName = none) ∨
      (fieldKind (lineKind l) = true ∧ s.curAmp = none) := by
  cases hk : lineKind l <;> simp only [psLine, hk] at herr <;> (repeat' split at herr) <;>
    (try simp only [Except.error.injEq] at herr) <;>
    simp_all [fieldKind]

theorem psLine_amplimer_eq {s : PSState} {l n : String} {ids : List Nat}
    (hk : lineKind l = .amplimer) (hn : s.curName = some n)
    (hids : lookupA n s.amplifiers = some ids) :
    psLine s l =
      .ok { s with amplifiers := insertRep n (ids ++ [s.heap.length]) s.amplifiers,
                   heap := s.heap ++ [Amplifier.init],
                   curAmp := some s.heap.length } := by
  simp only [psLine, hk, hn, hids]

theorem psLine_ok_curName_mono {s s2 : PSState} {l : String}
    (hok : psLine s l = .ok s2) (h : s.curName.isSome = true) :
    s2.curName.isSome = true := by
  rcases psLine_ok_curName hok with h2 | h2
  · rw [h2]; exact h
  · exact (psLine_primer_ok h2 hok).1

theorem psLine_ok_curAmp_mono {s s2 : PSState} {l : String}
    (hok : psLine s l = .ok s2) (h : s.curAmp.isSome = true) :
    s2.curAmp.isSome = true := by
  rcases psLine_ok_curAmp hok with h2 | h2
  · rw [h2]; exact h
  · exact (psLine_amplimer_ok h2 hok).2.2

theorem psRunFrom_no_nameErr (lines : List String) :
    ∀ s : PSState, cursorOk s.curName.isSome s.curAmp.isSome lines = true →
      ∀ v, psRunFrom s lines ≠ .error (.nameErr v) := by
  induction lines with
  | nil => intro s _ v h; simp [psRunFrom] at h
  | cons l rest ih =>
    intro s hc v h
    simp only [psRunFrom] at h
    cases hl : psLine s l with
    | error e =>
      rw [hl] at h
      cases h
      rcases psLine_nameErr hl with ⟨hk, hnone⟩ | ⟨hk, hnone⟩
      · simp only [cursorOk, hk, hnone] at hc
        simp at hc
      · cases hk2 : lineKind l <;> simp [hk2, fieldKind] at hk <;>
          simp only [cursorOk, hk2, fieldKind, if_pos, hnone] at hc <;> simp at hc
    | ok s2 =>
      rw [hl] at h
      refine ih s2 ?_ v h
      cases hk : lineKind l with
      | primer =>
        obtain ⟨h1, h2⟩ := psLine_primer_ok hk hl
        simp only [cursorOk, hk] at hc
        rw [h1, h2]
        exact hc
      | amplimer =>
        obtain ⟨h1, h2, h3⟩ := psLine_amplimer_ok hk hl
        simp only [cursorOk, hk, h1, Bool.true_and] at hc
        rw [h2, h1, h3]
        exact hc
      | blank =>
        have := psLine_blank (s := s) hk
        rw [this] at hl
        cases hl
        simpa [cursorOk, hk, fieldKind] using hc
      | other =>
        have := psLine_other (s := s) hk
        rw [this] at hl
        cases hl
        simpa [cursorOk, hk, fieldKind] using hc
      | seqLine =>
        obtain ⟨h1, h2, h3, h4⟩ := psLine_field_ok (by simp [hk, fieldKind]) hl
        simp only [cursorOk, hk, fieldKind, if_pos, h4, Bool.true_and] at hc
        rw [h2, h3, h4]
        exact hc
      | lenLine =>
        obtain ⟨h1, h2, h3, h4⟩ := psLine_field_ok (by simp [hk, fieldKind]) hl
        simp only [cursorOk, hk, fieldKind, if_pos, h4, Bool.true_and] at hc
        rw [h2, h3, h4]
        exact hc
      | fwd =>
        obtain ⟨h1, h2, h3, h4⟩ := psLine_field_ok (by simp [hk, fieldKind]) hl
        simp only [cursorOk, hk, fieldKind, if_pos, h4, Bool.true_and] at hc
        rw [h2, h3, h4]
        exact hc
      | rev =>
        obtain ⟨h1, h2, h3, h4⟩ := psLine_field_ok (by simp [hk, fieldKind]) hl
        simp only [cursorOk, hk, fieldKind, if_pos, h4, Bool.true_and] at hc
        rw [h2, h3, h4]
        exact hc
      | ampLen =>
        obtain ⟨h1, h2, h3, h4⟩ := psLine_field_ok (by simp [hk, fieldKind]) hl
        simp only [cursorOk, hk, fieldKind, if_pos, h4, Bool.true_and] at hc
        rw [h2, h3, h4]
        exact hc

theorem psRunFrom_ok_cursorOk (lines : List String) :
    ∀ (s s2 : PSState), psRunFrom s lines = .ok s2 →
      cursorOk s.curName.isSome s.curAmp.isSome lines = true := by
  induction lines with
  | nil => intro s s2 _; simp [cursorOk]
  | cons l rest ih =>
    intro s s2 h
    simp only [psRunFrom] at h
    cases hl : psLine s l with
    | error e => rw [hl] at h; cases h
    | ok s3 =>
      rw [hl] at h
      have hrest := ih s3 s2 h
      cases hk : lineKind l with
      | primer =>
        obtain ⟨h1, h2⟩ := psLine_primer_ok hk hl
        simp only [cursorOk, hk]
        rw [h1, h2] at hrest
        exact hrest
      | amplimer =>
        obtain ⟨h1, h2, h3⟩ := psLine_amplimer_ok hk hl
        simp only [cursorOk, hk, h1, Bool.true_and]
        rw [h2, h1, h3] at hrest
        exact hrest
      | blank =>
        have := psLine_blank (s := s) hk
        rw [this] at hl
        cases hl
        simpa [cursorOk, hk, fieldKind] using hrest
      | other =>
        have := psLine_other (s := s) hk
        rw [this] at hl
        cases hl
        simpa [cursorOk, hk, fieldKind] using hrest
      | seqLine =>
        obtain ⟨h1, h2, h3, h4⟩ := psLine_field_ok (by simp [hk, fieldKind]) hl
        simp only [cursorOk, hk, fieldKind, if_pos, h4, Bool.true_and]
        rw [h2, h3, h4] at hrest
        exact hrest
      | lenLine =>
        obtain ⟨h1, h2, h3, h4⟩ := psLine_field_ok (by simp [hk, fieldKind]) hl
        simp only [cursorOk, hk, fieldKind, if_pos, h4, Bool.true_and]
        rw [h2, h3, h4] at hrest
        exact hrest
      | fwd =>
        obtain ⟨h1, h2, h3, h4⟩ := psLine_field_ok (by simp [hk, fieldKind]) hl
        simp only [cursorOk, hk, fieldKind, if_pos, h4, Bool.true_and]
        rw [h2, h3, h4] at hrest
        exact hrest
      | rev =>
        obtain ⟨h1, h2, h3, h4⟩ := psLine_field_ok (by simp [hk, fieldKind]) hl
        simp only [cursorOk, hk, fieldKind, if_pos, h4, Bool.true_and]
        rw [h2, h3, h4] at hrest
        exact hrest
      | ampLen =>
        obtain ⟨h1, h2, h3, h4⟩ := psLine_field_ok (by simp [hk, fieldKind]) hl
        simp only [cursorOk, hk, fieldKind, if_pos, h4, Bool.true_and]
        rw [h2, h3, h4] at hrest
        exact hrest

/-- C10: the amplification-report parser is well-defined only on inputs
where every `Amplimer` line is preceded by some `Primer name` line and every
field line is preceded by some `Amplimer` line; under that precondition the
references to the current primer-pair name and the current event never hit
an undefined cursor (no `NameError`), and on inputs violating the
precondition the parser fails rather than returning a result. -/
theorem cursor_precondition (lines : List String) :
    (cursorPre lines → ∀ v, read_primersearch_result lines ≠ .error (.nameErr v)) ∧
      (¬ cursorPre lines → ∀ rec, read_primersearch_result lines ≠ .ok rec) := by
  constructor
  · intro hpre v h
    unfold read_primersearch_result at h
    cases hr : psRun lines with
    | ok s => rw [hr] at h; cases h
    | error e =>
      rw [hr] at h
      cases h
      exact psRunFrom_no_nameErr lines psInit hpre v hr
  · intro hpre rec h
    unfold read_primersearch_result at h
    cases hr : psRun lines with
    | error e => rw [hr] at h; cases h
    | ok s =>
      exact hpre (psRunFrom_ok_cursorOk lines psInit s hr)

/-- Witness for C10: a well-formed input is never rejected with a cursor
error, and an input whose first line is an `Amplimer` line with no prior
`Primer name` line yields no parse result. -/
theorem cursor_precondition_witness :
    (∀ v, read_primersearch_result
        ["Primer name P1", "Amplimer 1", "\tAmplimer length: 470 bp"] ≠
          .error (.nameErr v)) ∧
      (∀ rec, read_primersearch_result ["Amplimer 1"] ≠ .ok rec) :=
  ⟨(cursor_precondition ["Primer name P1", "Amplimer 1", "\tAmplimer length: 470 bp"]).1
      (by decide),
   (cursor_precondition ["Amplimer 1"]).2 (by decide)⟩

theorem getD_of_get? {α : Type} {l : List α} {n : Nat} {a : α} (d : α)
    (h : l.get? n = some a) : l.getD n d = a := by
  induction l generalizing n with
  | nil => cases n <;> simp [List.get?] at h
  | cons x rest ih =>
    cases n with
    | zero => simp [List.get?] at h; simp [List.getD, h]
    | succ m =>
      simp only [List.get?] at h
      simpa [List.getD] using ih (n := m) h

theorem lt_length_of_get? {α : Type} {l : List α} {n : Nat} {a : α}
    (h : l.get? n = some a) : n < l.length := by
  induction l generalizing n with
  | nil => cases n <;> simp [List.get?] at h
  | cons x rest ih =>
    cases n with
    | zero => simp
    | succ m =>
      simp only [List.get?] at h
      exact Nat.succ_lt_succ (ih h)

theorem psLine_field_heap {s s2 : PSState} {l : String}
    (hf : fieldKind (lineKind l) = true) (hok : psLine s l = .ok s2) :
    s2.heap.length = s.heap.length := by
  cases hk : lineKind l <;> simp only [psLine, hk] at hok <;> simp [fieldKind, hk] at hf <;>
    (repeat' split at hok) <;>
    (try (simp only [modifyHeap, Except.ok.injEq] at hok; try subst hok)) <;>
    simp_all [modifyHeap]

theorem psLine_primer_ok_eq {s s2 : PSState} {l : String}
    (hk : lineKind l = .primer) (hok : psLine s l = .ok s2) :
    ∃ name0, (pySplitWs l).getLast? = some name0 ∧
      s2 = { s with amplifiers := insertRep name0 [] s.amplifiers,
                    curName := some name0 } := by
  cases hn : (pySplitWs l).getLast? with
  | none =>
    simp only [psLine, hk, hn] at hok
    exact Except.noConfusion hok
  | some name0 =>
    simp only [psLine, hk, hn] at hok
    exact ⟨name0, rfl, (Except.ok.inj hok).symm⟩

theorem psLine_amplimer_ok_eq {s s2 : PSState} {l : String}
    (hk : lineKind l = .amplimer) (hok : psLine s l = .ok s2) :
    ∃ m ids, s.curName = some m ∧ lookupA m s.amplifiers = some ids ∧
      s2 = { s with amplifiers := insertRep m (ids ++ [s.heap.length]) s.amplifiers,
                    heap := s.heap ++ [Amplifier.init],
                    curAmp := some s.heap.length } := by
  cases hm : s.curName with
  | none =>
    simp only [psLine, hk, hm] at hok
    exact Except.noConfusion hok
  | some m =>
    cases hids : lookupA m s.amplifiers with
    | none =>
      simp only [psLine, hk, hm, hids] at hok
      exact Except.noConfusion hok
    | some ids =>
      simp only [psLine, hk, hm, hids] at hok
      exact ⟨m, ids, rfl, hids, (Except.ok.inj hok).symm⟩

theorem psRun_other_aux (lines : List String) :
    ∀ (s s2 : PSState) (n : String),
      s.curName ≠ some n →
      (∀ l ∈ lines, lineKind l = .primer → (pySplitWs l).getLast? ≠ some n) →
      psRunFrom s lines = .ok s2 →
      lookupA n s2.amplifiers = lookupA n s.amplifiers := by
  induction lines with
  | nil =>
    intro s s2 n _ _ hrun
    cases hrun
    rfl
  | cons l rest ih =>
    intro s s2 n hcur hno hrun
    simp only [psRunFrom] at hrun
    cases hl : psLine s l with
    | error e => rw [hl] at hrun; cases hrun
    | ok s3 =>
      rw [hl] at hrun
      have hno2 : ∀ l2 ∈ rest, lineKind l2 = .primer → (pySplitWs l2).getLast? ≠ some n :=
        fun l2 h2 => hno l2 (by simp [h2])
      cases hk : lineKind l with
      | primer =>
        obtain ⟨name0, hn0, heq⟩ := psLine_primer_ok_eq hk hl
        have hne : n ≠ name0 := by
          intro hcontra
          subst hcontra
          exact hno l (by simp) hk hn0
        have hih := ih s3 s2 n
          (by rw [heq]; intro hbad; exact hne (Option.some.inj hbad).symm)
          hno2 hrun
        rw [hih, heq]
        exact lookupA_insertRep_ne hne [] s.amplifiers
      | amplimer =>
        obtain ⟨m, ids, hm, hids, heq⟩ := psLine_amplimer_ok_eq hk hl
        have hne : n ≠ m := by
          intro hcontra
          rw [← hcontra] at hm
          exact hcur hm
        have hih := ih s3 s2 n (by rw [heq]; exact hcur) hno2 hrun
        rw [hih, heq]
        exact lookupA_insertRep_ne hne _ s.amplifiers
      | blank =>
        rw [psLine_blank hk] at hl
        replace hl := Except.ok.inj hl
        subst hl
        exact ih s s2 n hcur hno2 hrun
      | other =>
        rw [psLine_other hk] at hl
        replace hl := Except.ok.inj hl
        subst hl
        exact ih s s2 n hcur hno2 hrun
      | seqLine =>
        obtain ⟨h1, h2, _, _⟩ := psLine_field_ok (by simp [hk, fieldKind]) hl
        rw [ih s3 s2 n (by rw [h2]; exact hcur) hno2 hrun, h1]
      | lenLine =>
        obtain ⟨h1, h2, _, _⟩ := psLine_field_ok (by simp [hk, fieldKind]) hl
        rw [ih s3 s2 n (by rw [h2]; exact hcur) hno2 hrun, h1]
      | fwd =>
        obtain ⟨h1, h2, _, _⟩ := psLine_field_ok (by simp [hk, fieldKind]) hl
        rw [ih s3 s2 n (by rw [h2]; exact hcur) hno2 hrun, h1]
      | rev =>
        obtain ⟨h1, h2, _, _⟩ := psLine_field_ok (by simp [hk, fieldKind]) hl
        rw [ih s3 s2 n (by rw [h2]; exact hcur) hno2 hrun, h1]
      | ampLen =>
        obtain ⟨h1, h2, _, _⟩ := psLine_field_ok (by simp [hk, fieldKind]) hl
        rw [ih s3 s2 n (by rw [h2]; exact hcur) hno2 hrun, h1]

theorem psRun_ids_aux (mid : List String) :
    ∀ (s s2 : PSState) (n : String) (ids : List Nat),
      s.curName = some n → lookupA n s.amplifiers = some ids →
      (∀ l ∈ mid, lineKind l ≠ .primer) → psRunFrom s mid = .ok s2 →
      lookupA n s2.amplifiers =
          some (ids ++ List.range' s.heap.length
            (mid.countP (fun l => decide (lineKind l = LineKind.amplimer)))) ∧
        s2.heap.length = s.heap.length +
          mid.countP (fun l => decide (lineKind l = LineKind.amplimer)) ∧
        s2.curName = some n := by
  induction mid with
  | nil =>
    intro s s2 n ids hn hids _ hrun
    cases hrun
    exact ⟨by simpa using hids, by simp, hn⟩
  | cons l rest ih =>
    intro s s2 n ids hn hids hmid hrun
    simp only [psRunFrom] at hrun
    cases hl : psLine s l with
    | error e => rw [hl] at hrun; cases hrun
    | ok s3 =>
      rw [hl] at hrun
      have hmid2 : ∀ l2 ∈ rest, lineKind l2 ≠ .primer := fun l2 h2 => hmid l2 (by simp [h2])
      cases hk : lineKind l with
      | primer => exact absurd hk (hmid l (by simp))
      | amplimer =>
        rw [psLine_amplimer_eq hk hn hids] at hl
        replace hl := Except.ok.inj hl
        obtain ⟨hlook, hheap, hname⟩ :=
          ih s3 s2 n (ids ++ [s.heap.length])
            (by rw [← hl]; simpa using hn)
            (by rw [← hl]
                simpa using lookupA_insertRep_self n (ids ++ [s.heap.length]) s.amplifiers)
            hmid2 hrun
        have hs3heap : s3.heap.length = s.heap.length + 1 := by
          rw [← hl]
          simp
        refine ⟨?_, ?_, hname⟩
        · rw [hlook, hs3heap]
          have hshape : (ids ++ [s.heap.length]) ++
              List.range' (s.heap.length + 1)
                (rest.countP (fun l2 => decide (lineKind l2 = LineKind.amplimer))) =
              ids ++ List.range' s.heap.length
                (rest.countP (fun l2 => decide (lineKind l2 = LineKind.amplimer)) + 1) := by
            rw [List.append_assoc]
            rfl
          rw [hshape]
          have hcnt : (l :: rest).countP (fun l2 => decide (lineKind l2 = LineKind.amplimer)) =
              rest.countP (fun l2 => decide (lineKind l2 = LineKind.amplimer)) + 1 := by
            simp [List.countP_cons, hk]
          rw [hcnt]
        · rw [hheap, hs3heap]
          simp [List.countP_cons, hk]
          omega
      | blank =>
        rw [psLine_blank hk] at hl
        replace hl := Except.ok.inj hl
        subst hl
        obtain ⟨hlook, hheap, hname⟩ := ih s s2 n ids hn hids hmid2 hrun
        exact ⟨by rw [hlook]; simp [List.countP_cons, hk],
          by rw [hheap]; simp [List.countP_cons, hk], hname⟩
      | other =>
        rw [psLine_other hk] at hl
        replace hl := Except.ok.inj hl
        subst hl
        obtain ⟨hlook, hheap, hname⟩ := ih s s2 n ids hn hids hmid2 hrun
        exact ⟨by rw [hlook]; simp [List.countP_cons, hk],
          by rw [hheap]; simp [List.countP_cons, hk], hname⟩
      | seqLine =>
        obtain ⟨h1, h2, _, _⟩ := psLine_field_ok (by simp [hk, fieldKind]) hl
        have hh := psLine_field_heap (by simp [hk, fieldKind]) hl
        obtain ⟨hlook, hheap, hname⟩ :=
          ih s3 s2 n ids (by rw [h2, hn]) (by rw [h1, hids]) hmid2 hrun
        exact ⟨by rw [hlook, hh]; simp [List.countP_cons, hk],
          by rw [hheap, hh]; simp [List.countP_cons, hk], hname⟩
      | lenLine =>
        obtain ⟨h1, h2, _, _⟩ := psLine_field_ok (by simp [hk, fieldKind]) hl
        have hh := psLine_field_heap (by simp [hk, fieldKind]) hl
        obtain ⟨hlook, hheap, hname⟩ :=
          ih s3 s2 n ids (by rw [h2, hn]) (by rw [h1, hids]) hmid2 hrun
        exact ⟨by rw [hlook, hh]; simp [List.countP_cons, hk],
          by rw [hheap, hh]; simp [List.countP_cons, hk], hname⟩
      | fwd =>
        obtain ⟨h1, h2, _, _⟩ := psLine_field_ok (by simp [hk, fieldKind]) hl
        have hh := psLine_field_heap (by simp [hk, fieldKind]) hl
        obtain ⟨hlook, hheap, hname⟩ :=
          ih s3 s2 n ids (by rw [h2, hn]) (by rw [h1, hids]) hmid2 hrun
        exact ⟨by rw [hlook, hh]; simp [List.countP_cons, hk],
          by rw [hheap, hh]; simp [List.countP_cons, hk], hname⟩
      | rev =>
        obtain ⟨h1, h2, _, _⟩ := psLine_field_ok (by simp [hk, fieldKind]) hl
        have hh := psLine_field_heap (by simp [hk, fieldKind]) hl
        obtain ⟨hlook, hheap, hname⟩ :=
          ih s3 s2 n ids (by rw [h2, hn]) (by rw [h1, hids]) hmid2 hrun
        exact ⟨by rw [hlook, hh]; simp [List.countP_cons, hk],
          by rw [hheap, hh]; simp [List.countP_cons, hk], hname⟩
      | ampLen =>
        obtain ⟨h1, h2, _, _⟩ := psLine_field_ok (by simp [hk, fieldKind]) hl
        have hh := psLine_field_heap (by simp [hk, fieldKind]) hl
        obtain ⟨hlook, hheap, hname⟩ :=
          ih s3 s2 n ids (by rw [h2, hn]) (by rw [h1, hids]) hmid2 hrun
        exact ⟨by rw [hlook, hh]; simp [List.countP_cons, hk],
          by rw [hheap, hh]; simp [List.countP_cons, hk], hname⟩

/-- C2: a line beginning with `Primer name` introduces the last
whitespace-delimited token of that line as the current primer-pair name and
resets its event list to empty; the event list for that name then has
length exactly the number of `Amplimer` lines of its section `mid` (the
lines up to the next `Primer name` line), with zero blocks yielding an
empty list rather than an error.  The section may sit anywhere in the
report: `post` is the rest of the input, either empty or starting with the
next `Primer name` line, with the name `n` never re-introduced there.  The
events are in block order: in the append-only heap of the embedding the
list bound to `n` holds consecutive ascending heap identifiers, one
allocated at each `Amplimer` line in line order, so the k-th event of the
list is the one created by the k-th `Amplimer` block. -/
theorem amplimer_event_count (pre mid post : List String) (pLine n : String)
    (record : List (String × List Amplifier))
    (hkind : lineKind pLine = .primer)
    (hn : (pySplitWs pLine).getLast? = some n)
    (hmid : ∀ l ∈ mid, lineKind l ≠ .primer)
    (hpost : post = [] ∨ lineKind (post.headD "") = .primer)
    (hpostn : ∀ l ∈ post, lineKind l = .primer → (pySplitWs l).getLast? ≠ some n)
    (hok : read_primersearch_result (pre ++ pLine :: (mid ++ post)) = .ok record) :
    ∃ evs, lookupA n record = some evs ∧
      evs.length = mid.countP (fun l => decide (lineKind l = LineKind.amplimer)) ∧
      ∃ (s : PSState) (h0 : Nat),
        psRun (pre ++ pLine :: (mid ++ post)) = .ok s ∧
        lookupA n s.amplifiers = some (List.range' h0 evs.length) ∧
        evs = (List.range' h0 evs.length).map (fun i => s.heap.getD i Amplifier.init) := by
  unfold read_primersearch_result at hok
  cases hr : psRun (pre ++ pLine :: (mid ++ post)) with
  | error e => rw [hr] at hok; cases hok
  | ok sF =>
    rw [hr] at hok
    replace hok := Except.ok.inj hok
    have hr2 := hr
    unfold psRun at hr2
    rw [psRunFrom_append] at hr2
    cases hp : psRunFrom psInit pre with
    | error e => rw [hp] at hr2; cases hr2
    | ok s1 =>
      rw [hp] at hr2
      simp only [psRunFrom] at hr2
      rw [psLine_primer hkind hn] at hr2
      replace hr2 : psRunFrom
          { s1 with amplifiers := insertRep n [] s1.amplifiers, curName := some n }
          (mid ++ post) = .ok sF := hr2
      rw [psRunFrom_append] at hr2
      cases hm : psRunFrom
          { s1 with amplifiers := insertRep n [] s1.amplifiers, curName := some n } mid with
      | error e => rw [hm] at hr2; cases hr2
      | ok s3 =>
        rw [hm] at hr2
        obtain ⟨hlook3, _, _⟩ :=
          psRun_ids_aux mid _ s3 n []
            (by simp)
            (by simpa using lookupA_insertRep_self n [] s1.amplifiers)
            hmid hm
        simp only [List.nil_append] at hlook3
        set c := mid.countP (fun l => decide (lineKind l = LineKind.amplimer)) with hc
        have hlookF : lookupA n sF.amplifiers = some (List.range' s1.heap.length c) := by
          rcases hpost with hempty | hhead
          · subst hempty
            cases hr2
            exact hlook3
          · cases post with
            | nil => cases hr2; exact hlook3
            | cons l0 rest0 =>
              simp only [List.headD_cons] at hhead
              simp only [psRunFrom] at hr2
              cases hl0 : psLine s3 l0 with
              | error e => rw [hl0] at hr2; cases hr2
              | ok s4 =>
                rw [hl0] at hr2
                obtain ⟨name0, hn0, heq⟩ := psLine_primer_ok_eq hhead hl0
                have hne : n ≠ name0 := by
                  intro hcontra
                  subst hcontra
                  exact hpostn l0 (by simp) hhead hn0
                have hcur4 : s4.curName ≠ some n := by
                  rw [heq]
                  intro hbad
                  exact hne (Option.some.inj hbad).symm
                have hpres := psRun_other_aux rest0 s4 sF n hcur4
                  (fun l2 h2 => hpostn l2 (by simp [h2])) hr2
                rw [hpres]
                have hlook4 : lookupA n s4.amplifiers = lookupA n s3.amplifiers := by
                  rw [heq]
                  exact lookupA_insertRep_ne hne [] s3.amplifiers
                rw [hlook4]
                exact hlook3
        refine ⟨(List.range' s1.heap.length c).map
            (fun i => sF.heap.getD i Amplifier.init), ?_, ?_, sF, s1.heap.length, rfl, ?_, ?_⟩
        · rw [← hok]
          rw [lookupA_map n (fun ids => ids.map (fun i => sF.heap.getD i Amplifier.init))
            sF.amplifiers, hlookF]
          rfl
        · simp
        · rw [hlookF]
          congr 1
          congr 1
          simp
        · congr 1
          congr 1
          simp

/-- Witness for C2: the pair `P2` sits in the middle of a report — between
`P1` before it and `P3` after it — with two `Amplimer` blocks, and its
event list has length two with the heap identifiers 0 and 1 in block
order; a primer pair introduced with zero `Amplimer` blocks parses to an
empty list, not an error. -/
theorem amplimer_event_count_witness :
    (read_primersearch_result
        ["Primer name P1", "Primer name P2", "Amplimer 1", "Amplimer 2",
         "Primer name P3", "Amplimer 1"] =
      .ok [("P1", []), ("P2", [Amplifier.init, Amplifier.init]),
           ("P3", [Amplifier.init])]) ∧
    (∃ evs, lookupA "P2"
        [("P1", ([] : List Amplifier)), ("P2", [Amplifier.init, Amplifier.init]),
         ("P3", [Amplifier.init])] = some evs ∧
        evs.length = 2 ∧
        ∃ (s : PSState) (h0 : Nat),
          psRun ["Primer name P1", "Primer name P2", "Amplimer 1", "Amplimer 2",
                 "Primer name P3", "Amplimer 1"] = .ok s ∧
          lookupA "P2" s.amplifiers = some (List.range' h0 evs.length) ∧
          evs = (List.range' h0 evs.length).map (fun i => s.heap.getD i Amplifier.init)) ∧
    (read_primersearch_result ["Primer name P9"] = .ok [("P9", [])]) ∧
    (∃ evs, lookupA "P9" [("P9", ([] : List Amplifier))] = some evs ∧ evs.length = 0) := by
  refine ⟨by decide, ?_, by decide, ?_⟩
  · have h := amplimer_event_count ["Primer name P1"] ["Amplimer 1", "Amplimer 2"]
      ["Primer name P3", "Amplimer 1"] "Primer name P2" "P2"
      [("P1", []), ("P2", [Amplifier.init, Amplifier.init]), ("P3", [Amplifier.init])]
      (by decide) (by decide) (by decide) (by decide) (by decide) (by decide)
    simpa using h
  · have h := amplimer_event_count [] [] [] "Primer name P9" "P9" [("P9", [])]
      (by decide) (by decide) (by decide) (by decide) (by decide) (by decide)
    obtain ⟨evs, h1, h2, _⟩ := h
    exact ⟨evs, by simpa using h1, by simpa using h2⟩

theorem psLine_fwd_parseErr {s : PSState} {bad : String}
    (hkind : lineKind bad = .fwd) (hamp : s.curAmp.isSome = true)
    (hbad : (pySplitOnChar ' ' bad).length < 8 ∨
        pyInt? ((pySplitOnChar ' ' bad).getD 5 "") = none ∨
        pyInt? ((pySplitOnChar ' ' bad).getD 7 "") = none) :
    psLine s bad = .error (.parseErr bad) := by
  cases h5 : (pySplitOnChar ' ' bad).get? 5 with
  | none => simp only [psLine, hkind, h5]
  | some t5 =>
    cases h7 : (pySplitOnChar ' ' bad).get? 7 with
    | none => simp only [psLine, hkind, h5, h7]
    | some t7 =>
      obtain ⟨i, hi⟩ := Option.isSome_iff_exists.mp hamp
      have hd5 : (pySplitOnChar ' ' bad).getD 5 "" = t5 := getD_of_get? "" h5
      have hd7 : (pySplitOnChar ' ' bad).getD 7 "" = t7 := getD_of_get? "" h7
      have hlen : 8 ≤ (pySplitOnChar ' ' bad).length := lt_length_of_get? h7
      cases hi5 : pyInt? t5 with
      | none => simp only [psLine, hkind, h5, h7, hi, hi5]
      | some a =>
        cases hi7 : pyInt? t7 with
        | none => simp only [psLine, hkind, h5, h7, hi, hi5, hi7]
        | some b =>
          exfalso
          rcases hbad with h | h | h
          · omega
          · rw [hd5, hi5] at h; cases h
          · rw [hd7, hi7] at h; cases h

/-- C7: a `forward strand` line with fewer than eight space-delimited
tokens, or with a non-integer token in an integer position, makes parsing
fail with a parse error identifying the offending line; no partial result
is returned. -/
theorem malformed_forward_line (pre post : List String) (bad : String) (s : PSState)
    (hpre : psRun pre = .ok s) (hamp : s.curAmp.isSome = true)
    (hkind : lineKind bad = .fwd)
    (hbad : (pySplitOnChar ' ' bad).length < 8 ∨
        pyInt? ((pySplitOnChar ' ' bad).getD 5 "") = none ∨
        pyInt? ((pySplitOnChar ' ' bad).getD 7 "") = none) :
    read_primersearch_result (pre ++ bad :: post) = .error (.parseErr bad) := by
  have hline := psLine_fwd_parseErr (s := s) hkind hamp hbad
  unfold read_primersearch_result psRun
  rw [psRunFrom_append]
  unfold psRun at hpre
  rw [hpre]
  simp only [psRunFrom, hline, Except.map]

/-- Witness for C7: a short `forward strand` line after a well-formed
prefix aborts the whole parse with the offending line in the error. -/
theorem malformed_forward_line_witness :
    psRun ["Primer name P1", "Amplimer 1"] =
        .ok ⟨[("P1", [0])], [Amplifier.init], some "P1", some 0⟩ ∧
      read_primersearch_result
        ["Primer name P1", "Amplimer 1", "\tAAA hits forward strand", "Amplimer 2"] =
        .error (.parseErr "\tAAA hits forward strand") := by
  refine ⟨by decide, ?_⟩
  have h := malformed_forward_line ["Primer name P1", "Amplimer 1"] ["Amplimer 2"]
    "\tAAA hits forward strand" ⟨[("P1", [0])], [Amplifier.init], some "P1", some 0⟩
    (by decide) (by decide) (by decide) (by decide)
  simpa using h

theorem lstripTab_tab_append (fp : String) (h : pyStartsWith fp "\t" = false) :
    String.mk (lstripTabL ("\t" ++ fp).data) = fp := by
  cases fp with
  | mk l =>
    show String.mk (lstripTabL ('\t' :: l)) = String.mk l
    unfold lstripTabL
    rw [List.dropWhile_cons, if_pos (by decide)]
    cases l with
    | nil => rfl
    | cons c cs =>
      have hb : ¬ '\t' = c := by
        have h2 : List.isPrefixOf ['\t'] (c :: cs) = false := h
        simpa [List.isPrefixOf] using h2
      rw [List.dropWhile_cons, if_neg (by simp [Ne.symm hb])]

/-- C8: on a well-formed strand or length line, a `forward strand` line
split on single spaces yields token 0 minus its leading tab as the forward
primer sequence, token 5 as the forward start and token 7 as the forward
mismatch count; a `reverse strand` line does the same with token 5 stripped
of surrounding brackets before integer parsing; and a line beginning with
tab plus `Amplimer length: ` yields its second-to-last whitespace-delimited
token as the integer amplicon length. -/
theorem field_extraction :
    (∀ (s : PSState) (i : Nat) (line fp t5 t7 : String) (a b : Int),
      lineKind line = .fwd → s.curAmp = some i →
      (pySplitOnChar ' ' line).get? 5 = some t5 →
      (pySplitOnChar ' ' line).get? 7 = some t7 →
      (pySplitOnChar ' ' line).getD 0 "" = "\t" ++ fp →
      pyStartsWith fp "\t" = false →
      pyInt? t5 = some a → pyInt? t7 = some b →
      psLine s line = .ok (modifyHeap s i (fun amp =>
        { amp with f_primer := fp, f_start := a, f_mismatch := b }))) ∧
    (∀ (s : PSState) (i : Nat) (line rp t5 t7 : String) (a b : Int),
      lineKind line = .rev → s.curAmp = some i →
      (pySplitOnChar ' ' line).get? 5 = some t5 →
      (pySplitOnChar ' ' line).get? 7 = some t7 →
      (pySplitOnChar ' ' line).getD 0 "" = "\t" ++ rp →
      pyStartsWith rp "\t" = false →
      pyInt? (String.mk (stripBrkL t5.data)) = some a → pyInt? t7 = some b →
      psLine s line = .ok (modifyHeap s i (fun amp =>
        { amp with r_primer := rp, r_start := a, r_mismatch := b }))) ∧
    (∀ (s : PSState) (i : Nat) (line : String) (v : Int),
      lineKind line = .ampLen → s.curAmp = some i →
      2 ≤ (pySplitWs line).length →
      pyInt? ((pySplitWs line).getD ((pySplitWs line).length - 2) "") = some v →
      psLine s line = .ok (modifyHeap s i (fun amp => { amp with amp_len := v }))) := by
  refine ⟨?_, ?_, ?_⟩
  · intro s i line fp t5 t7 a b hk hamp h5 h7 h0 hfp hi5 hi7
    simp only [psLine, hk, h5, h7, hamp, hi5, hi7, h0]
    rw [lstripTab_tab_append fp hfp]
  · intro s i line rp t5 t7 a b hk hamp h5 h7 h0 hrp hi5 hi7
    simp only [psLine, hk, h5, h7, hamp, hi5, hi7, h0]
    rw [lstripTab_tab_append rp hrp]
  · intro s i line v hk hamp hlen hint
    simp only [psLine, hk]
    rw [if_neg (by omega)]
    simp only [hint, hamp]

/-- Witness for C8: concrete EMBOSS-style strand and length lines update
the current event exactly as described. -/
theorem field_extraction_witness :
    (psLine ⟨[("P1", [0])], [Amplifier.init], some "P1", some 0⟩
        "\tAAGTCGAC hits forward strand at 10 with 0 mismatches" =
      .ok (modifyHeap ⟨[("P1", [0])], [Amplifier.init], some "P1", some 0⟩ 0 (fun amp =>
        { amp with f_primer := "AAGTCGAC", f_start := 10, f_mismatch := 0 }))) ∧
    (psLine ⟨[("P1", [0])], [Amplifier.init], some "P1", some 0⟩
        "\tGTTCAGGC hits reverse strand at [35] with 1 mismatches" =
      .ok (modifyHeap ⟨[("P1", [0])], [Amplifier.init], some "P1", some 0⟩ 0 (fun amp =>
        { amp with r_primer := "GTTCAGGC", r_start := 35, r_mismatch := 1 }))) ∧
    (psLine ⟨[("P1", [0])], [Amplifier.init], some "P1", some 0⟩
        "\tAmplimer length: 470 bp" =
      .ok (modifyHeap ⟨[("P1", [0])], [Amplifier.init], some "P1", some 0⟩ 0 (fun amp =>
        { amp with amp_len := 470 }))) :=
  ⟨field_extraction.1 ⟨[("P1", [0])], [Amplifier.init], some "P1", some 0⟩ 0
      "\tAAGTCGAC hits forward strand at 10 with 0 mismatches" "AAGTCGAC" "10" "0" 10 0
      (by decide) (by decide) (by decide) (by decide) (by decide) (by decide)
      (by decide) (by decide),
   field_extraction.2.1 ⟨[("P1", [0])], [Amplifier.init], some "P1", some 0⟩ 0
      "\tGTTCAGGC hits reverse strand at [35] with 1 mismatches" "GTTCAGGC" "[35]" "1" 35 1
      (by decide) (by decide) (by decide) (by decide) (by decide) (by decide)
      (by decide) (by decide),
   field_extraction.2.2 ⟨[("P1", [0])], [Amplifier.init], some "P1", some 0⟩ 0
      "\tAmplimer length: 470 bp" 470
      (by decide) (by decide) (by decide) (by decide)⟩

theorem head?_reverse_eq_getLast? {α : Type} (l : List α) :
    l.reverse.head? = l.getLast? := by
  induction l using List.reverseRecOn with
  | nil => rfl
  | append_singleton xs x _ => simp [List.getLast?_concat]

theorem rstripL_eq_self {l : List Char} {c : Char} (hl : l.getLast? = some c)
    (hc : c.isWhitespace = false) : rstripL l = l := by
  unfold rstripL
  cases hr : l.reverse with
  | nil =>
    have : l = [] := by simpa using congrArg List.reverse hr
    subst this
    simp at hl
  | cons d t =>
    have hd : d = c := by
      have h2 := head?_reverse_eq_getLast? l
      rw [hr, hl] at h2
      simpa using h2
    rw [List.dropWhile_cons, if_neg (by simp [hd, hc])]
    rw [← hr, List.reverse_reverse]

theorem splitPredL_no_sep (p : Char → Bool) : ∀ {l : List Char}, (∀ c ∈ l, p c = false) →
    splitPredL p l = [l] := by
  intro l
  induction l with
  | nil => intro _; rfl
  | cons c cs ih =>
    intro h
    have hrec := ih (fun d hd => h d (by simp [hd]))
    simp [splitPredL, h c (by simp), hrec]

theorem splitPredL_append_sep (p : Char → Bool) (sep : Char) (hsep : p sep = true) :
    ∀ (a b : List Char), (∀ c ∈ a, p c = false) →
      splitPredL p (a ++ sep :: b) = a :: splitPredL p b := by
  intro a
  induction a with
  | nil =>
    intro b _
    simp [splitPredL, hsep]
  | cons c a2 ih =>
    intro b h
    have hrec := ih b (fun d hd => h d (by simp [hd]))
    simp only [List.cons_append, splitPredL, h c (by simp), List.append_eq,
      Bool.false_eq_true, if_false]
    rw [hrec]

theorem splitCharL_no_sep {sep : Char} {l : List Char} (h : ∀ c ∈ l, ¬ c = sep) :
    splitCharL sep l = [l] :=
  splitPredL_no_sep _ (fun c hc => by simp [h c hc])

theorem splitCharL_append_sep {sep : Char} (a b : List Char) (h : ∀ c ∈ a, ¬ c = sep) :
    splitCharL sep (a ++ sep :: b) = a :: splitCharL sep b :=
  splitPredL_append_sep _ sep (by simp) a b (fun c hc => by simp [h c hc])

theorem string_data_append (a b : String) : (a ++ b).data = a.data ++ b.data := by
  cases a
  cases b
  rfl

theorem okLast_getLast {lin : String} (h : okLast lin = true) :
    ∃ ch, lin.data.getLast? = some ch ∧ ch.isWhitespace = false := by
  unfold okLast at h
  cases hg : lin.data.getLast? with
  | none => rw [hg] at h; cases h
  | some ch =>
    rw [hg] at h
    exact ⟨ch, rfl, by simpa using h⟩

theorem noTab_chars {s : String} (h : noTabB s = true) : ∀ c ∈ s.data, ¬ c = '\t' := by
  intro c hc
  unfold noTabB at h
  rw [List.all_eq_true] at h
  simpa using h c hc

theorem taxFields_render {cid lin : String} (h1 : noTabB cid = true)
    (h2 : noTabB lin = true) (h3 : okLast lin = true) :
    taxFields (renderTaxLine (cid, lin)) = [cid.data, lin.data] := by
  unfold taxFields renderTaxLine
  have hdata : ((cid ++ "\t" ++ lin) : String).data = cid.data ++ '\t' :: lin.data := by
    rw [string_data_append, string_data_append]
    have : ("\t" : String).data = ['\t'] := rfl
    rw [this, List.append_assoc]
    rfl
  rw [hdata]
  obtain ⟨ch, hg, hw⟩ := okLast_getLast h3
  have hne : lin.data ≠ [] := by
    intro hempty
    rw [hempty] at hg
    cases hg
  have hlast : (cid.data ++ '\t' :: lin.data).getLast? = some ch := by
    rw [List.getLast?_append_of_ne_nil cid.data (by simp)]
    rw [show ('\t' :: lin.data) = ['\t'] ++ lin.data from rfl,
      List.getLast?_append_of_ne_nil ['\t'] hne]
    exact hg
  rw [rstripL_eq_self hlast hw]
  rw [splitCharL_append_sep cid.data lin.data (noTab_chars h1)]
  rw [splitCharL_no_sep (noTab_chars h2)]

theorem kraken_go_ok (lines : List String)
    (h : ∀ l ∈ lines, 2 ≤ (taxFields l).length) :
    ∀ acc, ∃ out, read_kraken_labels_go acc lines = .ok out := by
  induction lines with
  | nil => intro acc; exact ⟨acc, rfl⟩
  | cons l rest ih =>
    intro acc
    have hlen := h l (by simp)
    cases h1 : (taxFields l).get? 1 with
    | none =>
      rw [List.get?_eq_none] at h1
      omega
    | some f1 =>
      obtain ⟨out, hout⟩ := ih (fun l2 h2 => h l2 (by simp [h2])) _
      exact ⟨out, by simp only [read_kraken_labels_go, h1]; exact hout⟩

theorem kraken_go_preserve {c : String} (lines : List String)
    (h : ∀ l ∈ lines, lineContig l ≠ c) :
    ∀ acc out, read_kraken_labels_go acc lines = .ok out →
      lookupA c out = lookupA c acc := by
  induction lines with
  | nil =>
    intro acc out hout
    cases hout
    rfl
  | cons l rest ih =>
    intro acc out hout
    simp only [read_kraken_labels_go] at hout
    cases h1 : (taxFields l).get? 1 with
    | none => rw [h1] at hout; cases hout
    | some f1 =>
      rw [h1] at hout
      have := ih (fun l2 h2 => h l2 (by simp [h2])) _ out hout
      rw [this, lookupA_insertRep_ne (Ne.symm (h l (by simp)))]

theorem kraken_go_append (xs ys : List String) :
    ∀ acc, read_kraken_labels_go acc (xs ++ ys) =
      match read_kraken_labels_go acc xs with
      | .ok acc2 => read_kraken_labels_go acc2 ys
      | .error e => .error e := by
  induction xs with
  | nil => intro acc; rfl
  | cons l rest ih =>
    intro acc
    simp only [List.cons_append, read_kraken_labels_go]
    cases h1 : (taxFields l).get? 1 with
    | none => rfl
    | some f1 => exact ih _

theorem string_mk_data (s : String) : String.mk s.data = s := by
  cases s
  rfl

theorem lineContig_render {cid lin : String} (h1 : noTabB cid = true)
    (h2 : noTabB lin = true) (h3 : okLast lin = true) :
    lineContig (renderTaxLine (cid, lin)) = cid := by
  unfold lineContig
  rw [taxFields_render h1 h2 h3]
  exact string_mk_data cid

/-- C4: on tab-delimited input lines `contig TAB lineage` (contig and
lineage tab-free, lineage ending in a non-whitespace character), the
resulting mapping sends each contig identifier to exactly the last
semicolon-delimited segment of the lineage on that contig's last occurring
line — a duplicate contig identifier is overwritten, so the last line
wins. -/
theorem taxonomy_last_segment (input : List (String × String)) (c lin : String)
    (xs ys : List (String × String))
    (hsplit : input = xs ++ (c, lin) :: ys)
    (hcid : ∀ p ∈ input, noTabB p.1 = true)
    (hlin : ∀ p ∈ input, noTabB p.2 = true ∧ okLast p.2 = true)
    (hlast2 : ∀ q ∈ ys, q.1 ≠ c) :
    ∃ tax, read_kraken_labels (input.map renderTaxLine) = .ok tax ∧
      lookupA c tax = some (lastSemiSegment lin) := by
  subst hsplit
  have hc1 : noTabB c = true := hcid (c, lin) (by simp)
  obtain ⟨hc2, hc3⟩ := hlin (c, lin) (by simp)
  unfold read_kraken_labels
  rw [List.map_append, List.map_cons, kraken_go_append]
  obtain ⟨acc1, hacc1⟩ := kraken_go_ok (xs.map renderTaxLine)
    (by
      intro l hl
      rw [List.mem_map] at hl
      obtain ⟨p, hp, rfl⟩ := hl
      obtain ⟨hp2, hp3⟩ := hlin p (by simp [hp])
      rw [show p = (p.1, p.2) from rfl, taxFields_render (hcid p (by simp [hp])) hp2 hp3]
      simp) []
  rw [hacc1]
  simp only [read_kraken_labels_go]
  rw [show (taxFields (renderTaxLine (c, lin))).get? 1 = some lin.data from by
    rw [taxFields_render hc1 hc2 hc3]; rfl]
  have hval : String.mk ((splitCharL ';' lin.data).getLastD []) =
      lastSemiSegment lin := rfl
  obtain ⟨out, hout⟩ := kraken_go_ok (ys.map renderTaxLine)
    (by
      intro l hl
      rw [List.mem_map] at hl
      obtain ⟨p, hp, rfl⟩ := hl
      obtain ⟨hp2, hp3⟩ := hlin p (by simp [hp])
      rw [show p = (p.1, p.2) from rfl, taxFields_render (hcid p (by simp [hp])) hp2 hp3]
      simp)
    (insertRep (lineContig (renderTaxLine (c, lin)))
      (String.mk ((splitCharL ';' lin.data).getLastD [])) acc1)
  refine ⟨out, hout, ?_⟩
  rw [kraken_go_preserve (ys.map renderTaxLine)
    (by
      intro l hl
      rw [List.mem_map] at hl
      obtain ⟨p, hp, rfl⟩ := hl
      obtain ⟨hp2, hp3⟩ := hlin p (by simp [hp])
      rw [show p = (p.1, p.2) from rfl,
        lineContig_render (hcid p (by simp [hp])) hp2 hp3]
      exact hlast2 p hp) _ out hout]
  rw [hval, lineContig_render hc1 hc2 hc3]
  exact lookupA_insertRep_self c (lastSemiSegment lin) acc1

/-- Witness for C4: the line `c1TABA;B;Salmonella` maps `c1` to exactly
`Salmonella`. -/
theorem taxonomy_last_segment_witness :
    (∃ tax, read_kraken_labels ["c1\tA;B;Salmonella"] = .ok tax ∧
        lookupA "c1" tax = some (lastSemiSegment "A;B;Salmonella")) ∧
      lastSemiSegment "A;B;Salmonella" = "Salmonella" := by
  refine ⟨?_, by decide⟩
  have h := taxonomy_last_segment [("c1", "A;B;Salmonella")] "c1" "A;B;Salmonella"
    [] [] (by decide) (by decide) (by decide) (by decide)
  simpa using h

theorem hash_read_aux (lines : List String) :
    ∀ tax : List (String × String),
      (∀ l ∈ lines, 2 ≤ (taxFields l).length) →
      (∀ l ∈ lines, ∀ l2 ∈ lines, lineTaxon l ≠ lineContig l2) →
      (∀ l ∈ lines, ∀ k ∈ tax.map Prod.fst, lineTaxon l ≠ k) →
      ∀ out, read_kraken_labels_go tax lines = .ok out →
        hash_kraken_labels_go (tax.map (fun p => (p.1, [p.2]))) lines =
          .ok (out.map (fun p => (p.1, [p.2]))) := by
  induction lines with
  | nil =>
    intro tax _ _ _ out hout
    cases hout
    rfl
  | cons l rest ih =>
    intro tax htab hdisj hk out hout
    have hlen := htab l (by simp)
    simp only [read_kraken_labels_go] at hout
    cases h1 : (taxFields l).get? 1 with
    | none => rw [h1] at hout; cases hout
    | some f1 =>
      rw [h1] at hout
      have htaxa : String.mk ((splitCharL ';' f1).getLastD []) = lineTaxon l := by
        unfold lineTaxon
        rw [getD_of_get? [] h1]
      have hnone : lookupA (String.mk ((splitCharL ';' f1).getLastD []))
          (tax.map (fun p => (p.1, [p.2]))) = none := by
        rw [lookupA_eq_none_iff]
        intro hmem
        have hkeys : (tax.map (fun p => (p.1, [p.2]))).map Prod.fst = tax.map Prod.fst := by
          simp [List.map_map]
        rw [hkeys] at hmem
        exact hk l (by simp) _ hmem (by rw [htaxa])
      simp only [hash_kraken_labels_go, h1, hnone, Option.isSome_none, Bool.false_eq_true,
        if_false]
      rw [insertRep_map (lineContig l) (String.mk ((splitCharL ';' f1).getLastD []))
        (fun t => [t]) tax]
      refine ih (insertRep (lineContig l) (String.mk ((splitCharL ';' f1).getLastD [])) tax)
        (fun l2 h2 => htab l2 (by simp [h2]))
        (fun l2 h2 l3 h3 => hdisj l2 (by simp [h2]) l3 (by simp [h3]))
        ?_ out hout
      intro l2 h2 k hkmem
      rcases insertRep_keys_subset (lineContig l) k
        (String.mk ((splitCharL ';' f1).getLastD [])) tax hkmem with hck | hck
      · rw [hck]
        exact hdisj l2 (by simp [h2]) l (by simp)
      · exact hk l2 (by simp [h2]) k hck

/-- C6 counterexample: on the two lines `c1 TAB A;B` and `c1 TAB X;c1` the
second line's label equals the contig identifier `c1`, so
`hash_kraken_labels` appends instead of rebinding; the first element of its
list for `c1` is `B`, while `read_kraken_labels` maps `c1` to `c1`. -/
theorem hash_labels_counterexample :
    (hash_kraken_labels ["c1\tA;B", "c1\tX;c1"]).toOption.bind (lookupA "c1") =
        some ["B", "c1"] ∧
      ((hash_kraken_labels ["c1\tA;B", "c1\tX;c1"]).toOption.bind
          (lookupA "c1")).map (fun l => l.headD "") = some "B" ∧
      (read_kraken_labels ["c1\tA;B", "c1\tX;c1"]).toOption.bind (lookupA "c1") =
        some "c1" ∧
      ("B" : String) ≠ "c1" := by
  refine ⟨by decide, by decide, by decide, by decide⟩

/-- C6 amended: when no computed taxonomy label equals any contig
identifier occurring in the input (and every line has its two tab fields),
the emission-path label parser `hash_kraken_labels` agrees with
`read_kraken_labels`: the first element of the list bound to every contig
equals the reference parser's label. -/
theorem hash_vs_read_labels (lines : List String)
    (htab : ∀ l ∈ lines, 2 ≤ (taxFields l).length)
    (hdisj : ∀ l ∈ lines, ∀ l2 ∈ lines, lineTaxon l ≠ lineContig l2) :
    ∃ tax hsh, read_kraken_labels lines = .ok tax ∧ hash_kraken_labels lines = .ok hsh ∧
      ∀ c, (lookupA c hsh).map (fun l => l.headD "") = lookupA c tax := by
  obtain ⟨tax, htax⟩ := kraken_go_ok lines htab []
  refine ⟨tax, tax.map (fun p => (p.1, [p.2])), htax, ?_, ?_⟩
  · exact hash_read_aux lines [] htab hdisj (by simp) tax htax
  · intro c
    rw [show (fun p : String × String => (p.1, [p.2])) =
      (fun p : String × String => (p.1, (fun t => [t]) p.2)) from rfl]
    rw [lookupA_map c (fun t => [t]) tax]
    cases lookupA c tax <;> simp

/-- Witness for C6 amended: labels `B` and `Y` collide with no contig. -/
theorem hash_vs_read_labels_witness :
    ∃ tax hsh, read_kraken_labels ["c1\tA;B", "c2\tX;Y"] = .ok tax ∧
      hash_kraken_labels ["c1\tA;B", "c2\tX;Y"] = .ok hsh ∧
      ∀ c, (lookupA c hsh).map (fun l => l.headD "") = lookupA c tax :=
  hash_vs_read_labels ["c1\tA;B", "c2\tX;Y"] (by decide) (by decide)

/-- C9 counterexample: on the line `>a TAB b` the source takes
`line.split(' ')[0].lstrip('>')`, producing the identifier `a TAB b`,
whereas the claim's first whitespace-delimited token of the
marker-stripped line is `a`; the two differ. -/
theorem unclassified_counterexample :
    read_kraken_unclassified [">a\tb"] = ["a\tb"] ∧
      (pySplitWs (String.mk ((">a\tb" : String).data.dropWhile (fun c => c = '>')))).headD ""
        = "a" ∧
      ("a\tb" : String) ≠ "a" := by
  refine ⟨by decide, by decide, by decide⟩

/-- C9 amended: every line beginning with `>` contributes exactly one
contig identifier — the line split on single space characters, token 0,
with all leading `>` characters stripped — to the result list, in input
order, and every other line contributes nothing. -/
theorem unclassified_amended (lines : List String) :
    read_kraken_unclassified lines =
      (lines.filter (fun l => pyStartsWith l ">")).map
        (fun l => String.mk (lstripGtL ((splitCharL ' ' l.data).headD []))) := by
  induction lines with
  | nil => rfl
  | cons l rest ih =>
    by_cases h : pyStartsWith l ">" = true
    · simp [read_kraken_unclassified, List.filter_cons, h, ih]
    · simp only [Bool.not_eq_true] at h
      simp [read_kraken_unclassified, List.filter_cons, h, ih]

theorem classify_noHits_eq (record : List (String × List Amplifier)) :
    (classify_amplifiers record).noHits =
      (record.filter (fun p => p.2.length = 0)).map Prod.fst := by
  induction record with
  | nil => rfl
  | cons p rest ih =>
    show (if p.2.length = 0 then [p.1] else []) ++ (classify_amplifiers rest).noHits = _
    rw [List.filter_cons]
    by_cases h : p.2.length = 0
    · rw [if_pos h, if_pos (by simp [h]), ih, List.map_cons]
      rfl
    · rw [if_neg h, if_neg (by simp [h]), ih]
      rfl

theorem classify_multiHits_eq (record : List (String × List Amplifier)) :
    (classify_amplifiers record).multiHits =
      (record.filter (fun p => 1 < p.2.length)).map Prod.fst := by
  induction record with
  | nil => rfl
  | cons p rest ih =>
    show (if p.2.length > 1 then [p.1] else []) ++ (classify_amplifiers rest).multiHits = _
    rw [List.filter_cons]
    by_cases h : 1 < p.2.length
    · rw [if_pos h, if_pos (by simp [h]), ih, List.map_cons]
      rfl
    · rw [if_neg h, if_neg (by simp [h]), ih]
      rfl

theorem mem_filterKeys {q : List Amplifier → Bool} :
    ∀ {record : List (String × List Amplifier)},
      (record.map Prod.fst).Nodup → ∀ n : String,
      (n ∈ (record.filter (fun p => q p.2)).map Prod.fst ↔
        ∃ evs, lookupA n record = some evs ∧ q evs = true) := by
  intro record
  induction record with
  | nil =>
    intro _ n
    simp [lookupA]
  | cons p rest ih =>
    obtain ⟨k2, v⟩ := p
    intro hnd n
    rw [List.map_cons, List.nodup_cons] at hnd
    obtain ⟨hp, hnd2⟩ := hnd
    by_cases hn : k2 = n
    · subst hn
      have hnotin : k2 ∉ (rest.filter (fun p2 => q p2.2)).map Prod.fst := by
        intro hmem
        rw [List.mem_map] at hmem
        obtain ⟨p2, hp2, hfst⟩ := hmem
        rw [List.mem_filter] at hp2
        exact hp (by rw [List.mem_map]; exact ⟨p2, hp2.1, hfst⟩)
      rw [List.filter_cons]
      by_cases hq : q v = true
      · rw [if_pos hq, List.map_cons]
        simp only [lookupA, if_pos rfl]
        constructor
        · intro _
          exact ⟨v, rfl, hq⟩
        · intro _
          exact List.mem_cons_self _ _
      · rw [if_neg hq]
        simp only [lookupA, if_pos rfl]
        constructor
        · intro hmem
          exact absurd hmem hnotin
        · rintro ⟨evs, hevs, hqe⟩
          cases hevs
          exact absurd hqe hq
    · have hstep : lookupA n ((k2, v) :: rest) = lookupA n rest := by
        simp [lookupA, hn]
      rw [hstep, ← ih hnd2 n, List.filter_cons]
      by_cases hq : q v = true
      · rw [if_pos hq, List.map_cons]
        constructor
        · intro h
          rcases List.mem_cons.mp h with hh | hh
          · exact absurd hh.symm hn
          · exact hh
        · intro h
          exact List.mem_cons.mpr (Or.inr h)
      · rw [if_neg hq]

/-- C3: the primer-pair names of a parsed record are partitioned into
`noHits` (event-list length 0), `uniqueHits` (length exactly 1) and
`multiHits` (length greater than 1); membership is determined solely by
list length, the three sets are pairwise disjoint, and their union is the
set of all primer-pair names. -/
theorem hit_classification (record : List (String × List Amplifier)) (n : String)
    (hnd : (record.map Prod.fst).Nodup) :
    (n ∈ (classify_amplifiers record).noHits ↔ hitLen? record n = some 0) ∧
    (n ∈ uniqueHits record ↔ hitLen? record n = some 1) ∧
    (n ∈ (classify_amplifiers record).multiHits ↔
      ∃ k, hitLen? record n = some k ∧ 1 < k) ∧
    ¬ (n ∈ (classify_amplifiers record).noHits ∧ n ∈ uniqueHits record) ∧
    ¬ (n ∈ (classify_amplifiers record).noHits ∧
        n ∈ (classify_amplifiers record).multiHits) ∧
    ¬ (n ∈ uniqueHits record ∧ n ∈ (classify_amplifiers record).multiHits) ∧
    (n ∈ record.map Prod.fst ↔
      n ∈ (classify_amplifiers record).noHits ∨ n ∈ uniqueHits record ∨
        n ∈ (classify_amplifiers record).multiHits) := by
  have h0 : n ∈ (classify_amplifiers record).noHits ↔ hitLen? record n = some 0 := by
    rw [classify_noHits_eq,
      mem_filterKeys (q := fun evs => decide (evs.length = 0)) hnd n]
    unfold hitLen?
    cases lookupA n record <;> simp
  have h1 : n ∈ uniqueHits record ↔ hitLen? record n = some 1 := by
    unfold uniqueHits
    rw [mem_filterKeys (q := fun evs => decide (evs.length = 1)) hnd n]
    unfold hitLen?
    cases lookupA n record <;> simp
  have h2 : n ∈ (classify_amplifiers record).multiHits ↔
      ∃ k, hitLen? record n = some k ∧ 1 < k := by
    rw [classify_multiHits_eq,
      mem_filterKeys (q := fun evs => decide (1 < evs.length)) hnd n]
    unfold hitLen?
    cases lookupA n record <;> simp
  have hkeys : n ∈ record.map Prod.fst ↔ ∃ k, hitLen? record n = some k := by
    rw [← lookupA_isSome_iff]
    unfold hitLen?
    cases lookupA n record <;> simp
  refine ⟨h0, h1, h2, ?_, ?_, ?_, ?_⟩
  · rintro ⟨ha, hb⟩
    rw [h0] at ha
    rw [h1] at hb
    rw [ha] at hb
    cases hb
  · rintro ⟨ha, hb⟩
    rw [h0] at ha
    rw [h2] at hb
    obtain ⟨k, hk, hk2⟩ := hb
    rw [ha] at hk
    cases hk
    omega
  · rintro ⟨ha, hb⟩
    rw [h1] at ha
    rw [h2] at hb
    obtain ⟨k, hk, hk2⟩ := hb
    rw [ha] at hk
    cases hk
    omega
  · rw [hkeys, h0, h1, h2]
    constructor
    · rintro ⟨k, hk⟩
      rcases Nat.lt_or_ge k 1 with hlt | hge
      · exact Or.inl (by rw [hk]; congr 1; omega)
      · rcases Nat.lt_or_ge k 2 with hlt2 | hge2
        · exact Or.inr (Or.inl (by rw [hk]; congr 1; omega))
        · exact Or.inr (Or.inr ⟨k, hk, by omega⟩)
    · rintro (hcase | hcase | ⟨k, hk, _⟩)
      · exact ⟨0, hcase⟩
      · exact ⟨1, hcase⟩
      · exact ⟨k, hk⟩

/-- Witness for C3: a record with three primer pairs of zero, one and two
events, checked at the name with two events. -/
theorem hit_classification_witness :
    (((([("P1", ([] : List Amplifier)), ("P2", [Amplifier.init]),
        ("P3", [Amplifier.init, Amplifier.init])]).map Prod.fst).Nodup) ∧
      (("P3" ∈ (classify_amplifiers [("P1", []), ("P2", [Amplifier.init]),
          ("P3", [Amplifier.init, Amplifier.init])]).noHits ↔
        hitLen? [("P1", []), ("P2", [Amplifier.init]),
          ("P3", [Amplifier.init, Amplifier.init])] "P3" = some 0) ∧
      ("P3" ∈ uniqueHits [("P1", []), ("P2", [Amplifier.init]),
          ("P3", [Amplifier.init, Amplifier.init])] ↔
        hitLen? [("P1", []), ("P2", [Amplifier.init]),
          ("P3", [Amplifier.init, Amplifier.init])] "P3" = some 1) ∧
      ("P3" ∈ (classify_amplifiers [("P1", []), ("P2", [Amplifier.init]),
          ("P3", [Amplifier.init, Amplifier.init])]).multiHits ↔
        ∃ k, hitLen? [("P1", []), ("P2", [Amplifier.init]),
          ("P3", [Amplifier.init, Amplifier.init])] "P3" = some k ∧ 1 < k) ∧
      ¬ ("P3" ∈ (classify_amplifiers [("P1", []), ("P2", [Amplifier.init]),
          ("P3", [Amplifier.init, Amplifier.init])]).noHits ∧
        "P3" ∈ uniqueHits [("P1", []), ("P2", [Amplifier.init]),
          ("P3", [Amplifier.init, Amplifier.init])]) ∧
      ¬ ("P3" ∈ (classify_amplifiers [("P1", []), ("P2", [Amplifier.init]),
          ("P3", [Amplifier.init, Amplifier.init])]).noHits ∧
        "P3" ∈ (classify_amplifiers [("P1", []), ("P2", [Amplifier.init]),
          ("P3", [Amplifier.init, Amplifier.init])]).multiHits) ∧
      ¬ ("P3" ∈ uniqueHits [("P1", []), ("P2", [Amplifier.init]),
          ("P3", [Amplifier.init, Amplifier.init])] ∧
        "P3" ∈ (classify_amplifiers [("P1", []), ("P2", [Amplifier.init]),
          ("P3", [Amplifier.init, Amplifier.init])]).multiHits) ∧
      ("P3" ∈ ([("P1", ([] : List Amplifier)), ("P2", [Amplifier.init]),
          ("P3", [Amplifier.init, Amplifier.init])]).map Prod.fst ↔
        "P3" ∈ (classify_amplifiers [("P1", []), ("P2", [Amplifier.init]),
          ("P3", [Amplifier.init, Amplifier.init])]).noHits ∨
        "P3" ∈ uniqueHits [("P1", []), ("P2", [Amplifier.init]),
          ("P3", [Amplifier.init, Amplifier.init])] ∨
        "P3" ∈ (classify_amplifiers [("P1", []), ("P2", [Amplifier.init]),
          ("P3", [Amplifier.init, Amplifier.init])]).multiHits))) :=
  ⟨by decide,
   hit_classification
     [("P1", []), ("P2", [Amplifier.init]), ("P3", [Amplifier.init, Amplifier.init])]
     "P3" (by decide)⟩

theorem mkRow_present {hsh : List (String × List String)} {amp : Amplifier}
    (filename primer_id : String) (hit_count : Nat)
    (h : hasLabel hsh amp.contig_id = true) :
    mkRow filename primer_id hit_count hsh amp =
      .ok ⟨primer_id, hit_count, filename, amp.contig_id, amp.amp_len,
           labelOf hsh amp.contig_id, amp.f_mismatch, amp.r_mismatch,
           amp.f_start, amp.r_start, amp.f_primer, amp.r_primer, "tbd"⟩ := by
  unfold hasLabel at h
  unfold mkRow labelOf
  cases hl : lookupA amp.contig_id hsh with
  | none => rw [hl] at h; cases h
  | some l =>
    rw [hl] at h
    cases l with
    | nil => cases h
    | cons t ts => rfl

theorem emitForPair_ok (filename name : String) (hit_count : Nat)
    (hsh : List (String × List String)) :
    ∀ evs : List Amplifier, (∀ amp ∈ evs, hasLabel hsh amp.contig_id = true) →
      emitForPair filename name hit_count hsh evs =
        .ok (evs.map (fun amp =>
          (⟨name, hit_count, filename, amp.contig_id, amp.amp_len,
            labelOf hsh amp.contig_id, amp.f_mismatch, amp.r_mismatch,
            amp.f_start, amp.r_start, amp.f_primer, amp.r_primer, "tbd"⟩ : Row))) := by
  intro evs
  induction evs with
  | nil => intro _; rfl
  | cons amp rest ih =>
    intro h
    rw [emitForPair]
    rw [mkRow_present filename name hit_count (h amp (by simp))]
    rw [List.map_cons]
    simp only [bind, Except.bind]
    rw [ih (fun a ha => h a (by simp [ha]))]

/-- C1: for every parsed amplification record and taxonomy mapping holding
a non-empty label list for every amplified contig, the output loop emits
exactly one row per amplification event, grouped per primer pair in report
order; every row of a primer pair carries the same hit count — the length
of that pair's event list — and the taxonomy label looked up by the event's
own contig identifier. -/
theorem row_generation (filename : String) (hsh : List (String × List String))
    (record : List (String × List Amplifier))
    (h : ∀ p ∈ record, ∀ amp ∈ p.2, hasLabel hsh amp.contig_id = true) :
    emit_rows filename hsh record =
      .ok (record.flatMap (fun p => p.2.map (fun amp =>
        (⟨p.1, p.2.length, filename, amp.contig_id, amp.amp_len,
          labelOf hsh amp.contig_id, amp.f_mismatch, amp.r_mismatch,
          amp.f_start, amp.r_start, amp.f_primer, amp.r_primer, "tbd"⟩ : Row)))) := by
  induction record with
  | nil => rfl
  | cons p rest ih =>
    rw [emit_rows]
    rw [emitForPair_ok filename p.1 p.2.length hsh p.2 (fun a ha => h p (by simp) a ha)]
    simp only [bind, Except.bind]
    rw [ih (fun p2 hp2 a ha => h p2 (by simp [hp2]) a ha)]
    rfl

/-- Witness for C1: the spec's multi-hit scenario — primer pair `P3`
amplifying two contigs emits two rows, both with hit count 2, each carrying
its own contig's label. -/
theorem row_generation_witness :
    (∀ p ∈ [("P3", [{ Amplifier.init with contig_id := "c1", amp_len := 470 },
                    { Amplifier.init with contig_id := "c2", amp_len := 350 }])],
      ∀ amp ∈ p.2, hasLabel [("c1", ["Salmonella"]), ("c2", ["Escherichia"])]
        amp.contig_id = true) ∧
    emit_rows "r.emboss" [("c1", ["Salmonella"]), ("c2", ["Escherichia"])]
      [("P3", [{ Amplifier.init with contig_id := "c1", amp_len := 470 },
               { Amplifier.init with contig_id := "c2", amp_len := 350 }])] =
      .ok [⟨"P3", 2, "r.emboss", "c1", 470, "Salmonella", 0, 0, 0, 0, "", "", "tbd"⟩,
           ⟨"P3", 2, "r.emboss", "c2", 350, "Escherichia", 0, 0, 0, 0, "", "", "tbd"⟩] := by
  refine ⟨by decide, ?_⟩
  have h := row_generation "r.emboss" [("c1", ["Salmonella"]), ("c2", ["Escherichia"])]
    [("P3", [{ Amplifier.init with contig_id := "c1", amp_len := 470 },
             { Amplifier.init with contig_id := "c2", amp_len := 350 }])]
    (by decide)
  simpa using h

theorem emitForPair_ok_all (filename name : String) (hit_count : Nat)
    (hsh : List (String × List String)) :
    ∀ (evs : List Amplifier) (rows : List Row),
      emitForPair filename name hit_count hsh evs = .ok rows →
      ∀ amp ∈ evs, ∃ r, mkRow filename name hit_count hsh amp = .ok r := by
  intro evs
  induction evs with
  | nil =>
    intro rows _ amp hmem
    cases hmem
  | cons a rest ih =>
    intro rows hok amp hmem
    rw [emitForPair] at hok
    cases hm : mkRow filename name hit_count hsh a with
    | error e =>
      rw [hm] at hok
      cases hok
    | ok r =>
      rw [hm] at hok
      rcases List.mem_cons.mp hmem with rfl | hmem2
      · exact ⟨r, hm⟩
      · simp only [bind, Except.bind] at hok
        cases hrest : emitForPair filename name hit_count hsh rest with
        | error e => rw [hrest] at hok; cases hok
        | ok rs => exact ih rs hrest amp hmem2

theorem emit_rows_ok_all (filename : String) (hsh : List (String × List String)) :
    ∀ (record : List (String × List Amplifier)) (rows : List Row),
      emit_rows filename hsh record = .ok rows →
      ∀ p ∈ record, ∀ amp ∈ p.2, ∃ r, mkRow filename p.1 p.2.length hsh amp = .ok r := by
  intro record
  induction record with
  | nil =>
    intro rows _ p hmem
    cases hmem
  | cons p2 rest ih =>
    intro rows hok p hmem amp hamp
    rw [emit_rows] at hok
    cases hpair : emitForPair filename p2.1 p2.2.length hsh p2.2 with
    | error e => rw [hpair] at hok; cases hok
    | ok rs =>
      rw [hpair] at hok
      rcases List.mem_cons.mp hmem with rfl | hmem2
      · exact emitForPair_ok_all filename p.1 p.2.length hsh p.2 rs hpair amp hamp
      · simp only [bind, Except.bind] at hok
        cases hrest : emit_rows filename hsh rest with
        | error e => rw [hrest] at hok; cases hok
        | ok rs2 => exact ih rs2 hrest p hmem2 amp hamp

/-- C5: an amplification event whose contig identifier is absent from the
taxonomy hash makes its row construction fail with a `KeyError` — the
direct lookup has no fallback — and the output loop produces no row list at
all, so no row with a defaulted label is ever emitted. -/
theorem missing_label_fails (filename : String) (hsh : List (String × List String))
    (record : List (String × List Amplifier)) (p : String × List Amplifier)
    (amp : Amplifier) (hp : p ∈ record) (hamp : amp ∈ p.2)
    (hmiss : lookupA amp.contig_id hsh = none) :
    mkRow filename p.1 p.2.length hsh amp = .error (.keyErr amp.contig_id) ∧
      ∀ rows, emit_rows filename hsh record ≠ .ok rows := by
  have hrow : mkRow filename p.1 p.2.length hsh amp = .error (.keyErr amp.contig_id) := by
    unfold mkRow
    rw [hmiss]
  refine ⟨hrow, ?_⟩
  intro rows hok
  obtain ⟨r, hr⟩ := emit_rows_ok_all filename hsh record rows hok p hp amp hamp
  rw [hrow] at hr
  cases hr

/-- Witness for C5: a record whose single event references contig `cX`,
absent from the hash, yields a `KeyError` row and no output list. -/
theorem missing_label_fails_witness :
    (({ Amplifier.init with contig_id := "cX" } : Amplifier) ∈
        [{ Amplifier.init with contig_id := "cX" }] ∧
      lookupA "cX" [("c1", ["Salmonella"])] = none) ∧
    mkRow "r.emboss" "P1" 1 [("c1", ["Salmonella"])]
        { Amplifier.init with contig_id := "cX" } = .error (.keyErr "cX") ∧
    ∀ rows, emit_rows "r.emboss" [("c1", ["Salmonella"])]
        [("P1", [{ Amplifier.init with contig_id := "cX" }])] ≠ .ok rows := by
  refine ⟨⟨by decide, by decide⟩, ?_⟩
  have h := missing_label_fails "r.emboss" [("c1", ["Salmonella"])]
    [("P1", [{ Amplifier.init with contig_id := "cX" }])]
    ("P1", [{ Amplifier.init with contig_id := "cX" }])
    { Amplifier.init with contig_id := "cX" }
    (by decide) (by decide) (by decide)
  simpa using h
